import Mathlib

/-!
TractView decoder verification.

Shallow embedding of the TractView tractography decoders (TRK, TCK, TRX)
and post-decode utilities, translated from the TypeScript sources
`src/trkParser.ts`, `src/tckParser.ts`, `src/trxParser.ts` and
`src/streamlineTypes.ts`, together with theorems settling the claims
about them.

Modelling conventions:
* A byte buffer (`ArrayBuffer`) is a total function `ℕ → ℕ` plus an
  explicit length; `byteAt` reduces every cell mod 256 (a `Uint8Array`
  cell is always in `[0,256)`).
* A JavaScript `number` is modelled by `F`: a finite rational, a signed
  infinity, or NaN.  The distinction between `+0` and `-0` is dropped
  (no decoder branches on it), and finite values are exact rationals —
  every float a decoder reads is decoded exactly, so bit-level decoding
  is faithful.
* A JavaScript exception is an `Except` error carrying the message;
  a `DataView` read out of bounds is the error `"RangeError"`.
* Loops are translated with an explicit fuel argument so that every
  definition reduces in the kernel; callers always pass fuel strictly
  larger than the possible iteration count (each iteration advances the
  offset by at least one byte, and fuel is `len + 1`).
-/

deriving instance DecidableEq for Except

namespace TractView

/-! ### Kernel-computable exact rationals

Mathlib's `ℚ` arithmetic does not reduce inside the kernel, so the
decoders compute with `Q`, a normalized fraction type whose operations
are all kernel-reducible; the specification-level statements relate `Q`
values to `ℚ` through `Q.toRat`. -/

/-- An exact rational: integer numerator, positive natural denominator,
kept in lowest terms by every constructor below. -/
structure Q where
  num : ℤ
  den : ℕ
  dpos : 0 < den
deriving DecidableEq

instance : Repr Q := ⟨fun q _ => repr (q.num, q.den)⟩

/-- Normalized fraction `n / d` (callers have `d ≠ 0`; the dead
`d = 0` branch returns 0). -/
def Q.mk0 (n : ℤ) (d : ℕ) : Q :=
  let g := Nat.gcd n.natAbs d
  if h : 0 < d / g then ⟨n / g, d / g, h⟩ else ⟨0, 1, Nat.one_pos⟩

def Q.ofInt (n : ℤ) : Q := ⟨n, 1, Nat.one_pos⟩

def Q.ofNat (n : ℕ) : Q := ⟨n, 1, Nat.one_pos⟩

instance : Inhabited Q := ⟨Q.ofInt 0⟩

/-- The rational value of a `Q`. -/
def Q.toRat (q : Q) : ℚ := (q.num : ℚ) / (q.den : ℚ)

def Q.addQ (a b : Q) : Q := Q.mk0 (a.num * b.den + b.num * a.den) (a.den * b.den)

def Q.subQ (a b : Q) : Q := Q.mk0 (a.num * b.den - b.num * a.den) (a.den * b.den)

def Q.mulQ (a b : Q) : Q := Q.mk0 (a.num * b.num) (a.den * b.den)

def Q.negQ (a : Q) : Q := ⟨-a.num, a.den, a.dpos⟩

/-- `a / b` for `b ≠ 0` (the dead `b = 0` branch returns 0; the JS
division-by-zero cases are handled before this is reached). -/
def Q.divQ (a b : Q) : Q :=
  Q.mk0 (a.num * b.den * (if b.num < 0 then -1 else 1)) (a.den * b.num.natAbs)

/-- Value order `a < b` (cross-multiplication; denominators are
positive). -/
def Q.blt (a b : Q) : Bool := decide (a.num * b.den < b.num * a.den)

/-- Value order `a ≤ b`. -/
def Q.ble (a b : Q) : Bool := decide (a.num * b.den ≤ b.num * a.den)

/-- `⌊a⌋`. -/
def Q.floorQ (a : Q) : ℤ := Int.fdiv a.num a.den

/-- Truncation toward zero (JS `ToIntegerOrInfinity` on a finite
value). -/
def Q.truncQ (a : Q) : ℤ :=
  if 0 ≤ a.num then (a.num.natAbs / a.den : ℕ) else -((a.num.natAbs / a.den : ℕ) : ℤ)

/-- `2 ^ e` for an integer exponent. -/
def qpow2 (e : ℤ) : Q :=
  if 0 ≤ e then ⟨2 ^ e.toNat, 1, Nat.one_pos⟩
  else ⟨1, 2 ^ (-e).toNat, Nat.pos_pow_of_pos _ (by norm_num)⟩

/-- `10 ^ e` for an integer exponent. -/
def qpow10 (e : ℤ) : Q :=
  if 0 ≤ e then ⟨10 ^ e.toNat, 1, Nat.one_pos⟩
  else ⟨1, 10 ^ (-e).toNat, Nat.pos_pow_of_pos _ (by norm_num)⟩

/-! `Q`/`ℚ` transfer lemmas. -/

theorem Q.den_cast_pos (a : Q) : (0 : ℚ) < (a.den : ℚ) := by
  exact_mod_cast a.dpos

theorem Q.toRat_mk0 (n : ℤ) (d : ℕ) (hd : d ≠ 0) :
    (Q.mk0 n d).toRat = (n : ℚ) / (d : ℚ) := by
  unfold Q.mk0 Q.toRat
  have hg : 0 < Nat.gcd n.natAbs d :=
    Nat.gcd_pos_of_pos_right _ (Nat.pos_of_ne_zero hd)
  have hgd : Nat.gcd n.natAbs d ∣ d := Nat.gcd_dvd_right _ _
  have hpos : 0 < d / Nat.gcd n.natAbs d :=
    Nat.div_pos (Nat.le_of_dvd (Nat.pos_of_ne_zero hd) hgd) hg
  have hgn : ((Nat.gcd n.natAbs d : ℤ)) ∣ n :=
    Int.dvd_natAbs.mp (Int.natCast_dvd_natCast.mpr (Nat.gcd_dvd_left _ _))
  simp only [hpos, dif_pos]
  rw [Int.cast_div_charZero hgn, Nat.cast_div hgd (by exact_mod_cast hg.ne')]
  have hgq : ((Nat.gcd n.natAbs d : ℚ)) ≠ 0 := by exact_mod_cast hg.ne'
  have hdq : ((d : ℚ)) ≠ 0 := by exact_mod_cast hd
  push_cast
  field_simp

theorem Q.toRat_ofInt (n : ℤ) : (Q.ofInt n).toRat = (n : ℚ) := by
  simp [Q.ofInt, Q.toRat]

theorem Q.toRat_ofNat (n : ℕ) : (Q.ofNat n).toRat = (n : ℚ) := by
  simp [Q.ofNat, Q.toRat]

theorem Q.toRat_addQ (a b : Q) : (a.addQ b).toRat = a.toRat + b.toRat := by
  unfold Q.addQ
  rw [Q.toRat_mk0 _ _ (Nat.mul_ne_zero a.dpos.ne' b.dpos.ne')]
  unfold Q.toRat
  rw [div_add_div _ _ (Q.den_cast_pos a).ne' (Q.den_cast_pos b).ne']
  push_cast
  ring_nf

theorem Q.toRat_subQ (a b : Q) : (a.subQ b).toRat = a.toRat - b.toRat := by
  unfold Q.subQ
  rw [Q.toRat_mk0 _ _ (Nat.mul_ne_zero a.dpos.ne' b.dpos.ne')]
  unfold Q.toRat
  rw [div_sub_div _ _ (Q.den_cast_pos a).ne' (Q.den_cast_pos b).ne']
  push_cast
  ring_nf

theorem Q.toRat_mulQ (a b : Q) : (a.mulQ b).toRat = a.toRat * b.toRat := by
  unfold Q.mulQ
  rw [Q.toRat_mk0 _ _ (Nat.mul_ne_zero a.dpos.ne' b.dpos.ne')]
  unfold Q.toRat
  push_cast
  rw [div_mul_div_comm]

theorem Q.toRat_negQ (a : Q) : a.negQ.toRat = -a.toRat := by
  simp [Q.negQ, Q.toRat, neg_div]

theorem Q.toRat_divQ (a b : Q) (hb : b.num ≠ 0) :
    (a.divQ b).toRat = a.toRat / b.toRat := by
  unfold Q.divQ
  rw [Q.toRat_mk0 _ _ (Nat.mul_ne_zero a.dpos.ne' (Int.natAbs_ne_zero.mpr hb))]
  unfold Q.toRat
  have hbq : ((b.num : ℚ)) ≠ 0 := by exact_mod_cast hb
  have hda : ((a.den : ℚ)) ≠ 0 := (Q.den_cast_pos a).ne'
  have hdb : ((b.den : ℚ)) ≠ 0 := (Q.den_cast_pos b).ne'
  rcases lt_or_ge b.num 0 with h | h
  · rw [if_pos h]
    push_cast [Int.cast_natAbs]
    rw [abs_of_neg (show ((b.num : ℚ)) < 0 by exact_mod_cast h)]
    field_simp
  · rw [if_neg (not_lt.mpr h)]
    push_cast [Int.cast_natAbs]
    rw [abs_of_nonneg (show (0 : ℚ) ≤ ((b.num : ℚ)) by exact_mod_cast h)]
    field_simp

theorem Q.blt_iff (a b : Q) : a.blt b = true ↔ a.toRat < b.toRat := by
  unfold Q.blt Q.toRat
  rw [div_lt_div_iff₀ (Q.den_cast_pos a) (Q.den_cast_pos b)]
  constructor
  · intro h
    exact_mod_cast of_decide_eq_true h
  · intro h
    exact decide_eq_true (by exact_mod_cast h)

theorem Q.ble_iff (a b : Q) : a.ble b = true ↔ a.toRat ≤ b.toRat := by
  unfold Q.ble Q.toRat
  rw [div_le_div_iff₀ (Q.den_cast_pos a) (Q.den_cast_pos b)]
  constructor
  · intro h
    exact_mod_cast of_decide_eq_true h
  · intro h
    exact decide_eq_true (by exact_mod_cast h)

theorem Q.num_eq_zero_iff (a : Q) : a.num = 0 ↔ a.toRat = 0 := by
  unfold Q.toRat
  rw [div_eq_zero_iff]
  constructor
  · intro h
    exact Or.inl (by exact_mod_cast h)
  · rintro (h | h)
    · exact_mod_cast h
    · exact absurd h (Q.den_cast_pos a).ne'

/-- Model of a JavaScript `number`: finite rational, signed infinity
(`inf true` is `+Infinity`), or `NaN`. -/
inductive F where
  | val (q : Q)
  | inf (pos : Bool)
  | nan
deriving DecidableEq, Repr, Inhabited

namespace F

/-- JS `isNaN`. -/
def isNaNF : F → Bool
  | nan => true
  | _ => false

/-- JS `isFinite`. -/
def isFiniteF : F → Bool
  | val _ => true
  | _ => false

/-- `!isFinite(x) && !isNaN(x)`: `x` is `+Infinity` or `-Infinity`. -/
def isInfF : F → Bool
  | inf _ => true
  | _ => false

/-- JS `<` on numbers (false whenever an operand is NaN). -/
def ltF : F → F → Bool
  | nan, _ => false
  | _, nan => false
  | inf p, inf q => !p && q
  | inf p, val _ => !p
  | val _, inf q => q
  | val a, val b => a.blt b

/-- JS `Math.min` (NaN-propagating; `-0` subtleties dropped). -/
def minF (a b : F) : F :=
  if a.isNaNF || b.isNaNF then nan else if ltF b a then b else a

/-- JS `Math.max` (NaN-propagating; `-0` subtleties dropped). -/
def maxF (a b : F) : F :=
  if a.isNaNF || b.isNaNF then nan else if ltF a b then b else a

/-- JS `+` on numbers. -/
def addF : F → F → F
  | nan, _ => nan
  | _, nan => nan
  | inf p, inf q => if p = q then inf p else nan
  | inf p, val _ => inf p
  | val _, inf q => inf q
  | val a, val b => val (a.addQ b)

/-- JS `-` on numbers. -/
def subF : F → F → F
  | nan, _ => nan
  | _, nan => nan
  | inf p, inf q => if p = q then nan else inf p
  | inf p, val _ => inf p
  | val _, inf q => inf (!q)
  | val a, val b => val (a.subQ b)

/-- JS `*` on numbers. -/
def mulF : F → F → F
  | nan, _ => nan
  | _, nan => nan
  | inf p, inf q => inf (p = q)
  | inf p, val b => if b.num = 0 then nan else inf (p = decide (0 < b.num))
  | val a, inf q => if a.num = 0 then nan else inf (q = decide (0 < a.num))
  | val a, val b => val (a.mulQ b)

/-- JS `/` on numbers (sign of zero dropped). -/
def divF : F → F → F
  | nan, _ => nan
  | _, nan => nan
  | inf _, inf _ => nan
  | inf p, val b => if b.num < 0 then inf (!p) else inf p
  | val _, inf _ => val (Q.ofInt 0)
  | val a, val b =>
    if b.num = 0 then (if a.num = 0 then nan else inf (decide (0 < a.num)))
    else val (a.divQ b)

end F

/-! ## Byte-level readers (`DataView` / typed arrays) -/

/-- One byte of the buffer (a `Uint8Array` cell is always `< 256`). -/
def byteAt (buf : ℕ → ℕ) (i : ℕ) : ℕ := buf i % 256

/-- `n`-byte little-endian unsigned read at `off`. -/
def getLE (buf : ℕ → ℕ) (off : ℕ) : ℕ → ℕ
  | 0 => 0
  | n + 1 => byteAt buf off + 256 * getLE buf (off + 1) n

/-- `n`-byte big-endian unsigned read at `off`. -/
def getBE (buf : ℕ → ℕ) (off : ℕ) : ℕ → ℕ
  | 0 => 0
  | n + 1 => byteAt buf off * 256 ^ n + getBE buf (off + 1) n

/-- Reinterpret a `w`-bit unsigned value as two's-complement signed. -/
def toSigned (w v : ℕ) : ℤ :=
  if v < 2 ^ (w - 1) then (v : ℤ) else (v : ℤ) - 2 ^ w

/-- `DataView.getUint16(off, true)`. -/
def getU16 (buf : ℕ → ℕ) (off : ℕ) : ℕ := getLE buf off 2

/-- `DataView.getUint32(off, true)`. -/
def getU32 (buf : ℕ → ℕ) (off : ℕ) : ℕ := getLE buf off 4

/-- `DataView.getInt16(off, true)`. -/
def getI16 (buf : ℕ → ℕ) (off : ℕ) : ℤ := toSigned 16 (getLE buf off 2)

/-- `DataView.getInt32(off, true)`. -/
def getI32 (buf : ℕ → ℕ) (off : ℕ) : ℤ := toSigned 32 (getLE buf off 4)

/-- Decode an IEEE-754 binary float with `exBits` exponent bits and
`manBits` mantissa bits from its bit pattern, exactly.  Covers
binary16 (5,10), binary32 (8,23) and binary64 (11,52). -/
def decodeFloatBits (exBits manBits bits : ℕ) : F :=
  let man := bits % 2 ^ manBits
  let ex := bits / 2 ^ manBits % 2 ^ exBits
  let sign := bits / 2 ^ (manBits + exBits) % 2
  let bias : ℤ := 2 ^ (exBits - 1) - 1
  if ex = 2 ^ exBits - 1 then
    (if man = 0 then F.inf (sign = 0) else F.nan)
  else
    let mag : Q :=
      if ex = 0 then (Q.ofNat man).mulQ (qpow2 (1 - bias - manBits))
      else (Q.ofNat (2 ^ manBits + man)).mulQ (qpow2 (ex - bias - manBits))
    F.val (if sign = 0 then mag else mag.negQ)

/-- `DataView.getFloat32(off, true)` (exact). -/
def getF32LE (buf : ℕ → ℕ) (off : ℕ) : F := decodeFloatBits 8 23 (getLE buf off 4)

/-- `DataView.getFloat32(off, false)`. -/
def getF32BE (buf : ℕ → ℕ) (off : ℕ) : F := decodeFloatBits 8 23 (getBE buf off 4)

/-- `DataView.getFloat64(off, true)` (exact). -/
def getF64LE (buf : ℕ → ℕ) (off : ℕ) : F := decodeFloatBits 11 52 (getLE buf off 8)

/-- `DataView.getFloat64(off, false)`. -/
def getF64BE (buf : ℕ → ℕ) (off : ℕ) : F := decodeFloatBits 11 52 (getBE buf off 8)

/-- View a `Uint8Array` given as a byte list as a read function (reads
inside the decoders are always in range; out of range defaults to 0). -/
def listBuf (l : List ℕ) : ℕ → ℕ := fun i => l.getD i 0

/-! ## JS string helpers over `List Char`

`TextDecoder('ascii')` / `'utf-8'` are modelled as the identity on byte
values (`Char.ofNat`); all header text the decoders inspect is ASCII. -/

/-- Decode the bytes in `[a, b)` as characters. -/
def bytesToChars (buf : ℕ → ℕ) (a b : ℕ) : List Char :=
  (List.range (b - a)).map (fun k => Char.ofNat (byteAt buf (a + k)))

/-- `.replace(/\0/g, '')`. -/
def stripNull (s : List Char) : List Char := s.filter (fun c => c ≠ Char.ofNat 0)

/-- ASCII whitespace for `trim` / `\s` (the JS classes also contain
rarer Unicode spaces, which no tractography header uses). -/
def isWS (c : Char) : Bool := c = ' ' || c = '\t' || c = '\n' || c = '\r'

/-- JS `String.prototype.trim`. -/
def trimJs (s : List Char) : List Char :=
  ((s.dropWhile isWS).reverse.dropWhile isWS).reverse

/-- JS `String.prototype.toLowerCase` (ASCII). -/
def lowerJs (s : List Char) : List Char := s.map Char.toLower

/-- `s.startsWith(p)`. -/
def strStarts (p s : List Char) : Bool := decide (s.take p.length = p)

/-- `s.endsWith(p)`. -/
def strEnds (p s : List Char) : Bool := decide (s.drop (s.length - p.length) = p)

/-- `s.includes(p)`. -/
def strHas (p s : List Char) : Bool :=
  (List.range (s.length + 1)).any (fun i => strStarts p (s.drop i))

/-- `split(/\r?\n/)`: split at each `\n`, consuming one `\r` directly
before it. -/
def splitLinesJs : List Char → List (List Char)
  | [] => [[]]
  | '\r' :: '\n' :: rest => [] :: splitLinesJs rest
  | '\n' :: rest => [] :: splitLinesJs rest
  | c :: rest =>
    match splitLinesJs rest with
    | [] => [[c]]
    | h :: t => (c :: h) :: t

/-- Split at every single character satisfying `p` (helper for `split`). -/
def splitEvery (p : Char → Bool) : List Char → List (List Char)
  | [] => [[]]
  | c :: rest =>
    if p c then [] :: splitEvery p rest
    else
      match splitEvery p rest with
      | [] => [[c]]
      | h :: t => (c :: h) :: t

/-- `split(/\s+/)`: adjacent whitespace merges into one separator, so
interior empty fields vanish while a leading/trailing field stays. -/
def splitWsJs (s : List Char) : List (List Char) :=
  match splitEvery isWS s with
  | [] => [[]]
  | [x] => [x]
  | x :: xs => x :: (xs.dropLast.filter (fun t => t ≠ [])) ++ [xs.getLastD []]

/-- `s.split(c)` for a single-character separator. -/
def splitCharJs (c : Char) (s : List Char) : List (List Char) :=
  splitEvery (fun d => d = c) s

def isDigit (c : Char) : Bool := '0' ≤ c && c ≤ '9'

def digitsToNat (l : List Char) : ℕ :=
  l.foldl (fun a c => a * 10 + (c.toNat - '0'.toNat)) 0

/-- JS `parseInt(s, 10)`: skip leading whitespace, optional sign, then
the longest digit prefix; `NaN` when there is no digit. -/
def parseIntJs (s : List Char) : F :=
  let s := s.dropWhile isWS
  let (sgn, s) : ℤ × List Char :=
    match s with
    | '-' :: rest => (-1, rest)
    | '+' :: rest => (1, rest)
    | _ => (1, s)
  let ds := s.takeWhile isDigit
  if ds = [] then F.nan else F.val (Q.ofInt (sgn * digitsToNat ds))

/-- JS `parseFloat`: sign, digits, optional fraction, optional exponent,
longest valid prefix; `NaN` when no digits occur.  (The `Infinity`
literal form is not modelled; no header uses it.) -/
def parseFloatJs (s : List Char) : F :=
  let s := s.dropWhile isWS
  let (neg, s) : Bool × List Char :=
    match s with
    | '-' :: rest => (true, rest)
    | '+' :: rest => (false, rest)
    | _ => (false, s)
  let ip := s.takeWhile isDigit
  let s1 := s.drop ip.length
  let (fp, s2) : List Char × List Char :=
    match s1 with
    | '.' :: rest => (rest.takeWhile isDigit, rest.drop (rest.takeWhile isDigit).length)
    | _ => ([], s1)
  if ip = [] ∧ fp = [] then F.nan
  else
    let mant : Q := (Q.ofNat (digitsToNat ip)).addQ (Q.mk0 (digitsToNat fp) (10 ^ fp.length))
    let ex : ℤ :=
      match s2 with
      | 'e' :: rest | 'E' :: rest =>
        let (es, rest') : ℤ × List Char :=
          match rest with
          | '-' :: r => (-1, r)
          | '+' :: r => (1, r)
          | _ => (1, rest)
        let eds := rest'.takeWhile isDigit
        if eds = [] then 0 else es * digitsToNat eds
      | _ => 0
    let mag := mant.mulQ (qpow10 ex)
    F.val (if neg then mag.negQ else mag)

/-! ## Unified data model (`streamlineTypes.ts`) -/

/-- One streamline (`Streamline` in `streamlineTypes.ts`).  `numPoints`
is a JS number because the TRX decoder can store a non-integer there;
`scalars`/`properties` are `undefined` (`none`) when absent. -/
structure Streamline where
  points : List F
  numPoints : F
  scalars : Option (List (List F)) := none
  properties : Option (List F) := none
deriving DecidableEq, Repr, Inhabited

/-- `TractographyFormat`. -/
inductive TractographyFormat where
  | trk | tck | trx
deriving DecidableEq, Repr

/-- Format-agnostic header (`TractographyHeader`).  The open string
metadata map is omitted (no claim touches it), and the voxel size is
stored squared (`voxelSizeSq`): the TRX decoder computes the voxel size
as the componentwise square root of these rationals, an irrational
number that has no computable exact representation; no claim depends on
the voxel-size field. -/
structure TractographyHeader where
  format : TractographyFormat
  dim : Q × Q × Q
  voxelSizeSq : Q × Q × Q
  nCount : ℕ
  version : ℕ
deriving DecidableEq, Repr

/-- `TractographyData`. -/
structure TractographyData where
  header : TractographyHeader
  streamlines : List Streamline
deriving DecidableEq, Repr

/-- `MAX_FILE_SIZE = 500 * 1024 * 1024`. -/
def MAX_FILE_SIZE : ℕ := 500 * 1024 * 1024

/-- `DEFAULT_DIMENSIONS = [0, 0, 0]`. -/
def DEFAULT_DIMENSIONS : Q × Q × Q := (Q.ofNat 0, Q.ofNat 0, Q.ofNat 0)

/-- `DEFAULT_VOXEL_SIZE = [1.0, 1.0, 1.0]` (stored squared: still ones). -/
def DEFAULT_VOXEL_SIZE_SQ : Q × Q × Q := (Q.ofNat 1, Q.ofNat 1, Q.ofNat 1)

/-! ## TRK decoder (`trkParser.ts`) -/

/-- `TrkHeader`.  The 444 reserved bytes (offsets 504–947) are carried
by the source as an opaque view and never consulted; they are omitted
here. -/
structure TrkHeader where
  idString : List Char
  dim : ℤ × ℤ × ℤ
  voxelSize : F × F × F
  origin : F × F × F
  nScalars : ℤ
  scalarNames : List (List Char)
  nProperties : ℤ
  propertyNames : List (List Char)
  voxToRas : List F
  voxelOrder : List Char
  pad2 : List Char
  imageOrientationPatient : List F
  pad1 : List Char
  invert : ℕ × ℕ × ℕ
  swap : ℕ × ℕ × ℕ
  nCount : ℤ
  version : ℤ
  hdrSize : ℤ
deriving DecidableEq, Repr

/-- `TrkData`. -/
structure TrkData where
  header : TrkHeader
  streamlines : List Streamline
deriving DecidableEq, Repr

/-- `parseHeader` of `trkParser.ts`: the fixed 1000-byte little-endian
header record (the caller guarantees `len ≥ 1000`). -/
def trkParseHeader (buf : ℕ → ℕ) : TrkHeader :=
  let nScalars := getI16 buf 36
  let nProperties := getI16 buf 238
  { idString := stripNull (bytesToChars buf 0 6)
    dim := (getI16 buf 6, getI16 buf 8, getI16 buf 10)
    voxelSize := (getF32LE buf 12, getF32LE buf 16, getF32LE buf 20)
    origin := (getF32LE buf 24, getF32LE buf 28, getF32LE buf 32)
    nScalars := nScalars
    scalarNames :=
      (List.range 10).filterMap (fun i =>
        let name := stripNull (bytesToChars buf (38 + 20 * i) (38 + 20 * i + 20))
        if (i : ℤ) < nScalars ∧ name ≠ [] then some name else none)
    nProperties := nProperties
    propertyNames :=
      (List.range 10).filterMap (fun i =>
        let name := stripNull (bytesToChars buf (240 + 20 * i) (240 + 20 * i + 20))
        if (i : ℤ) < nProperties ∧ name ≠ [] then some name else none)
    voxToRas := (List.range 16).map (fun i => getF32LE buf (440 + 4 * i))
    voxelOrder := stripNull (bytesToChars buf 948 952)
    pad2 := stripNull (bytesToChars buf 952 956)
    imageOrientationPatient := (List.range 6).map (fun i => getF32LE buf (956 + 4 * i))
    pad1 := stripNull (bytesToChars buf 980 982)
    invert := (byteAt buf 982, byteAt buf 983, byteAt buf 984)
    swap := (byteAt buf 985, byteAt buf 986, byteAt buf 987)
    nCount := getI32 buf 988
    version := getI32 buf 992
    hdrSize := getI32 buf 996 }

/-- Error-message builders of `validateTrkHeader` (string interpolation
of the offending value as in the source; JS float formatting is
abbreviated by `Repr` on `F`, which no claim inspects). -/
def msgNScalars (v : ℤ) : List Char :=
  ("Invalid TRK header: ").data ++
    (("nS").data ++ ("calars (" ++ toString v ++ ") must be 0-10").data)

def msgNProperties (v : ℤ) : List Char :=
  ("Invalid TRK header: ").data ++
    (("nP").data ++ ("roperties (" ++ toString v ++ ") must be 0-10").data)

def msgDim (i : ℕ) (v : ℤ) : List Char :=
  ("Invalid TRK header: ").data ++
    (("di").data ++
      ("mension[" ++ toString i ++ "] (" ++ toString v ++ ") out of valid range").data)

def msgVoxel (i : ℕ) (v : F) : List Char :=
  ("Invalid TRK header: ").data ++
    (("vo").data ++ ("xelSize[" ++ toString i ++ "] (" ++ (reprStr v) ++
      ") must be non-negative and finite").data)

def msgHdrSize (v : ℤ) : List Char :=
  ("Invalid TRK header: ").data ++
    (("hd").data ++ ("rSize (" ++ toString v ++ ") must be 1000").data)

/-- Select voxel-size component `i` (the source's `header.voxelSize[i]`). -/
def voxelAt (h : TrkHeader) : ℕ → F
  | 0 => h.voxelSize.1
  | 1 => h.voxelSize.2.1
  | _ => h.voxelSize.2.2

/-- Select dimension component `i`. -/
def dimAt (h : TrkHeader) : ℕ → ℤ
  | 0 => h.dim.1
  | 1 => h.dim.2.1
  | _ => h.dim.2.2

/-- The per-index validation conditions (`validateTrkHeader`'s loop
bodies). -/
def dimBad (h : TrkHeader) (i : ℕ) : Prop := dimAt h i < 0 ∨ 65535 < dimAt h i

def voxelBad (h : TrkHeader) (i : ℕ) : Prop :=
  ¬ (voxelAt h i).isFiniteF = true ∨ F.ltF (voxelAt h i) (F.val (Q.ofNat 0)) = true

instance (h : TrkHeader) (i : ℕ) : Decidable (dimBad h i) := by
  unfold dimBad; infer_instance

instance (h : TrkHeader) (i : ℕ) : Decidable (voxelBad h i) := by
  unfold voxelBad; infer_instance

/-- `validateTrkHeader`: field-bound checks in source order, each with
its own error (the source's two three-iteration `for` loops are
unrolled). -/
def validateTrkHeader (h : TrkHeader) : Except (List Char) Unit :=
  if h.nScalars < 0 ∨ 10 < h.nScalars then .error (msgNScalars h.nScalars)
  else if h.nProperties < 0 ∨ 10 < h.nProperties then .error (msgNProperties h.nProperties)
  else if dimBad h 0 then .error (msgDim 0 (dimAt h 0))
  else if dimBad h 1 then .error (msgDim 1 (dimAt h 1))
  else if dimBad h 2 then .error (msgDim 2 (dimAt h 2))
  else if voxelBad h 0 then .error (msgVoxel 0 (voxelAt h 0))
  else if voxelBad h 1 then .error (msgVoxel 1 (voxelAt h 1))
  else if voxelBad h 2 then .error (msgVoxel 2 (voxelAt h 2))
  else if h.hdrSize ≠ 1000 then .error (msgHdrSize h.hdrSize)
  else .ok ()

/-- The loop guard `streamlines.length < maxStreamlines`, where
`maxStreamlines = nCount > 0 ? nCount : Infinity`. -/
def trkBelowMax (h : TrkHeader) (cnt : ℕ) : Prop :=
  0 < h.nCount → (cnt : ℤ) < h.nCount

instance (h : TrkHeader) (cnt : ℕ) : Decidable (trkBelowMax h cnt) := by
  unfold trkBelowMax; infer_instance

/-- Body of the `parseStreamlines` `while` loop of `trkParser.ts`.
Validation guarantees `0 ≤ nScalars, nProperties ≤ 10`, so the `toNat`
casts below are exact.  Fuel exhaustion returns the accumulator (the
caller's fuel strictly exceeds the iteration count, since every
iteration advances `offset` by at least 16 bytes). -/
def trkLoop (buf : ℕ → ℕ) (len : ℕ) (h : TrkHeader) :
    ℕ → ℕ → List Streamline → List Streamline
  | 0, _, acc => acc
  | fuel + 1, offset, acc =>
    if offset < len ∧ trkBelowMax h acc.length then
      -- if (offset + 4 > bufferLength) break
      if offset + 4 ≤ len then
        let numPoints : ℤ := getI32 buf offset
        let offset := offset + 4
        if numPoints ≤ 0 ∨ 100000 < numPoints then acc  -- invalid streamline: recover
        else
          let np := numPoints.toNat
          let bytesPerPoint := 4 * (3 + h.nScalars.toNat)
          let bytesPerProps := 4 * h.nProperties.toNat
          let streamlineBytes := np * bytesPerPoint + bytesPerProps
          if offset + streamlineBytes ≤ len then
            let base := fun i => offset + i * bytesPerPoint
            let points := (List.range np).flatMap (fun i =>
              [getF32LE buf (base i), getF32LE buf (base i + 4), getF32LE buf (base i + 8)])
            let scalars :=
              if 0 < h.nScalars then
                some ((List.range h.nScalars.toNat).map (fun s =>
                  (List.range np).map (fun i => getF32LE buf (base i + 12 + 4 * s))))
              else none
            let properties :=
              if 0 < h.nProperties then
                some ((List.range h.nProperties.toNat).map (fun p =>
                  getF32LE buf (offset + np * bytesPerPoint + 4 * p)))
              else none
            trkLoop buf len h fuel (offset + streamlineBytes)
              (acc ++ [⟨points, F.val (Q.ofNat np), scalars, properties⟩])
          else acc
      else acc
    else acc

/-- `parseStreamlines` of `trkParser.ts` (`hdrSize || 1000` is the
source's falsy-default; validation has pinned `hdrSize = 1000`). -/
def trkParseStreamlines (buf : ℕ → ℕ) (len : ℕ) (h : TrkHeader) : List Streamline :=
  trkLoop buf len h (len + 1) (if h.hdrSize = 0 then 1000 else h.hdrSize.toNat) []

/-- `parseTrkFile`: size gate, 1000-byte header (a buffer shorter than
1000 bytes makes the header's `DataView` reads throw `RangeError`),
magic check, validation, body. -/
def parseTrkFile (buf : ℕ → ℕ) (len : ℕ) : Except (List Char) TrkData :=
  if MAX_FILE_SIZE < len then
    .error ("TRK file too large: exceeds limit").data
  else if len < 1000 then .error ("RangeError").data
  else
    let h := trkParseHeader buf
    if ¬ strStarts ("TRACK").data h.idString then
      .error ("Invalid TRK file: missing TRACK identifier").data
    else
      match validateTrkHeader h with
      | .error e => .error e
      | .ok _ => .ok ⟨h, trkParseStreamlines buf len h⟩

/-! ## Post-decode utilities (`trkParser.ts`) -/

/-- Result record of `applySkipSampling`. -/
structure SampleResult where
  sampled : List Streamline
  skipFactor : ℕ
  totalCount : ℕ
deriving DecidableEq, Repr

/-- The sampling `for` loop (`i` steps by `skipFactor` while fewer than
`maxCount` collected).  Fuel exceeds the iteration count at every call
site (`skipFactor ≥ 1` there, so at most `l.length` iterations). -/
def sampleLoop (l : List Streamline) (k maxCount : ℕ) :
    ℕ → ℕ → List Streamline → List Streamline
  | 0, _, acc => acc
  | fuel + 1, i, acc =>
    if i < l.length ∧ acc.length < maxCount then
      sampleLoop l k maxCount fuel (i + k) (acc ++ [l.getD i default])
    else acc

/-- `Math.ceil(a / b)` for naturals (exact for every length a JS array
can have; JS computes the quotient in double precision, which cannot
cross an integer for operands below `2^32`). -/
def ceilNat (a b : ℕ) : ℕ := (a + b - 1) / b

/-- `applySkipSampling` of `trkParser.ts`.  (`ceilNat _ 0 = 0` stands in
for the JS `Infinity` skip factor that arises only when `maxCount = 0`,
in which case the sampling loop collects nothing in either semantics.) -/
def applySkipSampling (streamlines : List Streamline) (maxCount skipThreshold : ℕ) :
    SampleResult :=
  let totalCount := streamlines.length
  if totalCount ≤ skipThreshold then
    ⟨streamlines.take (min maxCount totalCount), 1, totalCount⟩
  else
    let targetCount := min maxCount totalCount
    let skipFactor := ceilNat totalCount targetCount
    ⟨sampleLoop streamlines skipFactor maxCount (totalCount + 1) 0 [], skipFactor, totalCount⟩

/-- Bounding box as computed by `calculateBoundingBox`: min/max/center
per axis and the squared diagonal; the source's `size` is the square
root of `sizeSq` (see `bboxSize`). -/
structure BBox where
  min : F × F × F
  max : F × F × F
  center : F × F × F
  sizeSq : F
deriving DecidableEq, Repr

/-- Running min/max state of the bounding-box pass. -/
structure BBState where
  minX : F
  minY : F
  minZ : F
  maxX : F
  maxY : F
  maxZ : F
deriving DecidableEq, Repr

def bbUpdate (st : BBState) (x y z : F) : BBState :=
  ⟨F.minF st.minX x, F.minF st.minY y, F.minF st.minZ z,
   F.maxF st.maxX x, F.maxF st.maxY y, F.maxF st.maxZ z⟩

/-- The inner loop over one flat point array, striding by 3; reading
past the end of a typed array yields `undefined`, which `Math.min`
coerces to NaN. -/
def bbGo : List F → BBState → BBState
  | [], st => st
  | [x], st => bbUpdate st x F.nan F.nan
  | [x, y], st => bbUpdate st x y F.nan
  | x :: y :: z :: rest, st => bbGo rest (bbUpdate st x y z)

/-- `calculateBoundingBox` of `trkParser.ts` (`size` is delivered by
`bboxSize` below, the square root of the `sizeSq` field computed here). -/
def calculateBoundingBox (streamlines : List Streamline) : BBox :=
  let st := streamlines.foldl (fun st s => bbGo s.points st)
    ⟨F.inf true, F.inf true, F.inf true, F.inf false, F.inf false, F.inf false⟩
  let two := F.val (Q.ofNat 2)
  let dx := F.subF st.maxX st.minX
  let dy := F.subF st.maxY st.minY
  let dz := F.subF st.maxZ st.minZ
  { min := (st.minX, st.minY, st.minZ)
    max := (st.maxX, st.maxY, st.maxZ)
    center := (F.divF (F.addF st.minX st.maxX) two,
               F.divF (F.addF st.minY st.maxY) two,
               F.divF (F.addF st.minZ st.maxZ) two)
    sizeSq := F.addF (F.addF (F.mulF dx dx) (F.mulF dy dy)) (F.mulF dz dz) }

/-- The source's `size = Math.sqrt(...)`, as an exact real (non-finite
squared sizes, which no claim concerns, are sent to 0). -/
noncomputable def bboxSize (b : BBox) : ℝ :=
  match b.sizeSq with
  | F.val q => Real.sqrt q.toRat
  | _ => 0

/-! ## TCK decoder (`tckParser.ts`) -/

/-- `TckHeader`.  `fileOffset` and `count` are JS numbers (they come
from `parseInt`, which can yield NaN); `metadata` is an insertion-ordered
key/value list (a JS object preserves the position of an existing key on
re-assignment). -/
structure TckHeader where
  datatype : List Char
  fileOffset : F
  count : F
  totalCount : Option F
  timestamp : Option F
  metadata : List (List Char × List Char)
deriving DecidableEq, Repr

/-- `metadata[key] = value`: replace in place, or append. -/
def mdSet (m : List (List Char × List Char)) (k v : List Char) :
    List (List Char × List Char) :=
  if m.any (fun kv => kv.1 = k) then
    m.map (fun kv => if kv.1 = k then (k, v) else kv)
  else m ++ [(k, v)]

/-- `metadata[key]` lookup. -/
def mdGet (m : List (List Char × List Char)) (k : List Char) : Option (List Char) :=
  (m.find? (fun kv => kv.1 = k)).map (fun kv => kv.2)

/-- Data-type configuration (`DataTypeConfig`); `wide` selects the
8-byte `getFloat64` reader over the 4-byte `getFloat32` one. -/
structure DtCfg where
  bytesPerFloat : ℕ
  littleEndian : Bool
  wide : Bool
deriving DecidableEq, Repr

/-- The `DATA_TYPES` table.  (A JS property lookup would also hit
inherited `Object.prototype` keys such as `"toString"`; those denote no
reader configuration and no claim involves them.) -/
def dataTypes (s : List Char) : Option DtCfg :=
  if s = ("Float32LE").data then some ⟨4, true, false⟩
  else if s = ("Float32BE").data then some ⟨4, false, false⟩
  else if s = ("Float64LE").data then some ⟨8, true, true⟩
  else if s = ("Float64BE").data then some ⟨8, false, true⟩
  else none

/-- The configured reader (`config.reader(view, offset, le)`). -/
def readCfg (cfg : DtCfg) (buf : ℕ → ℕ) (off : ℕ) : F :=
  if cfg.wide then (if cfg.littleEndian then getF64LE buf off else getF64BE buf off)
  else (if cfg.littleEndian then getF32LE buf off else getF32BE buf off)

/-- A byte of the buffer as `Uint8Array` indexing sees it: in bounds the
byte value, out of bounds `undefined`, encoded as the sentinel 256 so
that every comparison against a byte constant is false. -/
def u8 (buf : ℕ → ℕ) (len i : ℕ) : ℕ := if i < len then byteAt buf i else 256

/-- The END-marker condition tested at index `i` of the header-search
loop: the bytes `E`,`N`,`D` at `i` and an LF or CR at `i + 3` (which
must be in bounds). -/
def tckEndPat (buf : ℕ → ℕ) (len i : ℕ) : Prop :=
  u8 buf len i = 69 ∧ u8 buf len (i + 1) = 78 ∧ u8 buf len (i + 2) = 68 ∧
    i + 3 < len ∧ (u8 buf len (i + 3) = 10 ∨ u8 buf len (i + 3) = 13)

instance (buf : ℕ → ℕ) (len i : ℕ) : Decidable (tckEndPat buf len i) := by
  unfold tckEndPat; infer_instance

/-- The header-search `for` loop: try indices `i < bound` in order,
return the first hit. -/
def tckFindEnd (buf : ℕ → ℕ) (len bound : ℕ) : ℕ → ℕ → Option ℕ
  | 0, _ => none
  | fuel + 1, i =>
    if i < bound then
      if tckEndPat buf len i then some i else tckFindEnd buf len bound fuel (i + 1)
    else none

/-- `headerEnd` computed from the first match position `i`: past the
newline, handling CRLF (`bytes[i+4]` may be out of bounds, in which
case the CRLF test compares `undefined` and fails). -/
def tckHeaderEndAt (buf : ℕ → ℕ) (len i : ℕ) : ℕ :=
  if u8 buf len (i + 3) = 13 ∧ u8 buf len (i + 4) = 10 then i + 5 else i + 4

/-- The END-marker search of `parseHeader` (`tckParser.ts`): indices
below `min(len, 10000) - 2`, result is `headerEnd`. -/
def tckHeaderEnd (buf : ℕ → ℕ) (len : ℕ) : Option ℕ :=
  let bound := min len 10000 - 2
  (tckFindEnd buf len bound (bound + 1) 0).map (tckHeaderEndAt buf len)

/-- Per-line update of the header-parsing state (the body of the
`for (const line of lines)` loop). -/
def tckLineStep (st : TckHeader) (line : List Char) : TckHeader :=
  if trimJs line = ("END").data then st
  else if lowerJs (trimJs line) = ("mrtrix tracks").data then
    { st with metadata := mdSet st.metadata (("mrtrix tracks").data) (("true").data) }
  else
    match line.findIdx? (fun c => c = ':') with
    | none => st
    | some colonIndex =>
      let key := lowerJs (trimJs (line.take colonIndex))
      let value := trimJs (line.drop (colonIndex + 1))
      let st := { st with metadata := mdSet st.metadata key value }
      if key = ("datatype").data then { st with datatype := value }
      else if key = ("file").data then
        let parts := splitWsJs value
        if 2 ≤ parts.length ∧ parts.getD 0 [] = (".").data then
          { st with fileOffset := parseIntJs (parts.getD 1 []) }
        else if parts.length = 1 then
          { st with fileOffset := parseIntJs (parts.getD 0 []) }
        else st
      else if key = ("count").data then { st with count := parseIntJs value }
      else if key = ("total_count").data then { st with totalCount := some (parseIntJs value) }
      else if key = ("timestamp").data then { st with timestamp := some (parseFloatJs value) }
      else st

/-- `parseHeader` of `tckParser.ts`: find the END marker (fatal when
absent), decode the header text, fold the non-empty lines, validate the
datatype. -/
def tckParseHeader (buf : ℕ → ℕ) (len : ℕ) : Except (List Char) TckHeader :=
  match tckHeaderEnd buf len with
  | none => .error ("Invalid TCK file: could not find END marker in header").data
  | some headerEnd =>
    let lines := (splitLinesJs (bytesToChars buf 0 headerEnd)).filter
      (fun line => trimJs line ≠ [])
    let st : TckHeader :=
      { datatype := ("Float32LE").data, fileOffset := F.val (Q.ofNat headerEnd), count := F.val (Q.ofNat 0)
        totalCount := none, timestamp := none, metadata := [] }
    let h := lines.foldl tckLineStep st
    if (dataTypes h.datatype).isSome then .ok h
    else .error (("Unsupported TCK datatype: ").data ++ h.datatype)

/-- Finalize the current in-progress streamline: appended only with at
least 2 points (6 floats); `numPoints = currentPoints.length / 3`.
(`new Float32Array(currentPoints)` would additionally round each stored
coordinate to binary32 when the datatype is Float64; the stored values
figure in no claim.) -/
def tckFinalize (cur : List F) : List Streamline :=
  if 6 ≤ cur.length then [⟨cur, F.val (Q.mk0 cur.length 3), none, none⟩] else []

def msgTckMalformed : List Char :=
  ("Malformed TCK file: streamline exceeds maximum point count").data

/-- The `while` loop of `parseStreamlines` (`tckParser.ts`): read a
triplet; `Infinity` in the first component ends the file, a NaN in any
component separates streamlines, anything else is a point; pushing past
300000 accumulated floats (100000 points) is fatal.  On the `Infinity`
exit the source pushes the in-progress streamline (when it has at least
2 points) and `break`s without clearing `currentPoints`, so the
post-loop end-of-buffer push appends the very same streamline a second
time: the `Infinity` exit appends `tckFinalize cur` twice.  A negative
offset (`file` offsets come from `parseInt`) makes the `DataView` read
throw. -/
def tckLoop (buf : ℕ → ℕ) (len : ℕ) (cfg : DtCfg) :
    ℕ → ℤ → List Streamline → List F → Except (List Char) (List Streamline)
  | 0, _, acc, cur => .ok (acc ++ tckFinalize cur)
  | fuel + 1, offset, acc, cur =>
    if offset + 3 * cfg.bytesPerFloat ≤ len then
      if offset < 0 then .error ("RangeError").data
      else
        let o := offset.toNat
        let x := readCfg cfg buf o
        let y := readCfg cfg buf (o + cfg.bytesPerFloat)
        let z := readCfg cfg buf (o + 2 * cfg.bytesPerFloat)
        let offset' := offset + 3 * cfg.bytesPerFloat
        if x.isInfF then .ok (acc ++ tckFinalize cur ++ tckFinalize cur)
        else if x.isNaNF || y.isNaNF || z.isNaNF then
          tckLoop buf len cfg fuel offset' (acc ++ tckFinalize cur) []
        else
          let cur' := cur ++ [x, y, z]
          if 300000 < cur'.length then .error msgTckMalformed
          else tckLoop buf len cfg fuel offset' acc cur'
    else .ok (acc ++ tckFinalize cur)

/-- `parseStreamlines` of `tckParser.ts`.  The loop starts at the
header's `fileOffset`; when it is NaN the loop condition
`NaN + bytesPerTriplet <= len` is immediately false, giving zero
iterations (a non-finite non-NaN offset cannot arise from `parseInt`). -/
def tckParseStreamlines (buf : ℕ → ℕ) (len : ℕ) (h : TckHeader) :
    Except (List Char) (List Streamline) :=
  match dataTypes h.datatype with
  | none => .error (("Invalid datatype configuration: ").data ++ h.datatype)
  | some cfg =>
    match h.fileOffset with
    | F.val q => tckLoop buf len cfg (len + 1) q.floorQ [] []
    | _ => .ok (tckFinalize [])

/-- `parseTckFile`: size gate, text header, magic check (metadata flag
or a first raw key containing `"mrtrix tracks"`), body, unified header
with `nCount = streamlines.length`. -/
def parseTckFile (buf : ℕ → ℕ) (len : ℕ) : Except (List Char) TractographyData :=
  if MAX_FILE_SIZE < len then
    .error ("TCK file too large: exceeds limit").data
  else
    match tckParseHeader buf len with
    | .error e => .error e
    | .ok h =>
      let magicOk : Bool :=
        match mdGet h.metadata (("mrtrix tracks").data) with
        | some v => decide (v ≠ [])
        | none => false
      let firstLine := ((h.metadata.head?).map (fun kv => kv.1)).getD []
      if ¬ magicOk ∧ ¬ strHas (("mrtrix tracks").data) (lowerJs firstLine) then
        .error ("Invalid TCK file: missing mrtrix tracks identifier").data
      else
        match tckParseStreamlines buf len h with
        | .error e => .error e
        | .ok streamlines =>
          .ok ⟨{ format := .tck, dim := DEFAULT_DIMENSIONS,
                 voxelSizeSq := DEFAULT_VOXEL_SIZE_SQ,
                 nCount := streamlines.length, version := 1 }, streamlines⟩

/-! ## TRX decoder (`trxParser.ts`) -/

/-- A ZIP entry: filename and decompressed bytes. -/
structure ZipEntry where
  name : List Char
  data : List ℕ
deriving DecidableEq, Repr

/-- `bytes.slice(a, b)` on the buffer (clamped, never throws). -/
def sliceBytes (buf : ℕ → ℕ) (len a b : ℕ) : List ℕ :=
  (List.range (min b len - min a len)).map (fun k => byteAt buf (min a len + k))

/-- The local-file-header walk of `parseZipEntries`.  DEFLATE entries go
through `inflate`, the model of the external `zlib.inflateRawSync`; any
other nonzero compression method is skipped.  Reads of the fixed header
fields past the buffer end throw `RangeError`. -/
def zipWalk (inflate : List ℕ → List ℕ) (buf : ℕ → ℕ) (len : ℕ) :
    ℕ → ℕ → List ZipEntry → Except (List Char) (List ZipEntry)
  | 0, _, acc => .ok acc
  | fuel + 1, offset, acc =>
    if offset < len - 4 then
      if getU32 buf offset ≠ 0x04034b50 then .ok acc
      else if len < offset + 30 then .error ("RangeError").data
      else
        let compressionMethod := getU16 buf (offset + 8)
        let compressedSize := getU32 buf (offset + 18)
        let nameLength := getU16 buf (offset + 26)
        let extraLength := getU16 buf (offset + 28)
        let name := (sliceBytes buf len (offset + 30) (offset + 30 + nameLength)).map Char.ofNat
        let dataOffset := offset + 30 + nameLength + extraLength
        let nextOffset := dataOffset + compressedSize
        if compressionMethod = 0 then
          zipWalk inflate buf len fuel nextOffset
            (acc ++ [⟨name, sliceBytes buf len dataOffset nextOffset⟩])
        else if compressionMethod = 8 then
          zipWalk inflate buf len fuel nextOffset
            (acc ++ [⟨name, inflate (sliceBytes buf len dataOffset nextOffset)⟩])
        else zipWalk inflate buf len fuel nextOffset acc
    else .ok acc

/-- JSON values as produced by `JSON.parse`. -/
inductive Json where
  | null
  | bool (b : Bool)
  | num (q : Q)
  | str (s : List Char)
  | arr (xs : List Json)
  | obj (kvs : List (List Char × Json))

/-- Hex digit value. -/
def hexVal (c : Char) : Option ℕ :=
  if '0' ≤ c ∧ c ≤ '9' then some (c.toNat - '0'.toNat)
  else if 'a' ≤ c ∧ c ≤ 'f' then some (c.toNat - 'a'.toNat + 10)
  else if 'A' ≤ c ∧ c ≤ 'F' then some (c.toNat - 'A'.toNat + 10)
  else none

/-- JSON string body after the opening quote: content and remainder
after the closing quote. -/
def jsonStrGo : List Char → List Char → Option (List Char × List Char)
  | [], _ => none
  | '"' :: rest, acc => some (acc.reverse, rest)
  | '\\' :: esc, acc =>
    match esc with
    | '"' :: r => jsonStrGo r ('"' :: acc)
    | '\\' :: r => jsonStrGo r ('\\' :: acc)
    | '/' :: r => jsonStrGo r ('/' :: acc)
    | 'b' :: r => jsonStrGo r (Char.ofNat 8 :: acc)
    | 'f' :: r => jsonStrGo r (Char.ofNat 12 :: acc)
    | 'n' :: r => jsonStrGo r ('\n' :: acc)
    | 'r' :: r => jsonStrGo r ('\r' :: acc)
    | 't' :: r => jsonStrGo r ('\t' :: acc)
    | 'u' :: a :: b :: c :: d :: r =>
      match hexVal a, hexVal b, hexVal c, hexVal d with
      | some va, some vb, some vc, some vd =>
        jsonStrGo r (Char.ofNat (((va * 16 + vb) * 16 + vc) * 16 + vd) :: acc)
      | _, _, _, _ => none
    | _ => none
  | c :: rest, acc => jsonStrGo rest (c :: acc)

/-- JSON number: `-? digits frac? exp?`, exact rational value. -/
def jsonNum (s : List Char) : Option (Q × List Char) :=
  let (neg, s1) : Bool × List Char :=
    match s with
    | '-' :: r => (true, r)
    | _ => (false, s)
  let ip := s1.takeWhile isDigit
  if ip = [] then none
  else
    let s2 := s1.drop ip.length
    let (fp, s3) : List Char × List Char :=
      match s2 with
      | '.' :: r => (r.takeWhile isDigit, r.drop (r.takeWhile isDigit).length)
      | _ => ([], s2)
    let (ex, s4) : ℤ × List Char :=
      match s3 with
      | 'e' :: r | 'E' :: r =>
        let (es, r') : ℤ × List Char :=
          match r with
          | '-' :: r2 => (-1, r2)
          | '+' :: r2 => (1, r2)
          | _ => (1, r)
        let eds := r'.takeWhile isDigit
        (es * digitsToNat eds, r'.drop eds.length)
      | _ => (0, s3)
    let mag := ((Q.ofNat (digitsToNat ip)).addQ
      (Q.mk0 (digitsToNat fp) (10 ^ fp.length))).mulQ (qpow10 ex)
    some (if neg then mag.negQ else mag, s4)

def jsonSkipWs (s : List Char) : List Char :=
  s.dropWhile (fun c => c = ' ' || c = '\n' || c = '\t' || c = '\r')

/-- Stack frame of the JSON parser: a partially-built array, or a
partially-built object whose current member `key`'s value is being
parsed. -/
inductive JFrame where
  | arrF (acc : List Json)
  | objF (acc : List (List Char × Json)) (key : List Char)

/-- Parser state: expecting a value, expecting the next object key
(with the members finished so far), or a finished value plus remainder. -/
inductive JState where
  | value (rem : List Char)
  | keyState (acc : List (List Char × Json)) (rem : List Char)
  | jdone (v : Json) (rem : List Char)

def jsonErr : Except (List Char) Json := .error ("Unexpected token in JSON").data

/-- The JSON parsing machine (one step per fuel unit; the caller's fuel
exceeds any possible step count). -/
def jsonRun : ℕ → List JFrame → JState → Except (List Char) Json
  | 0, _, _ => .error ("JSON parser fuel exhausted").data
  | fuel + 1, stack, st =>
    match st with
    | .value rem =>
      match jsonSkipWs rem with
      | 'n' :: 'u' :: 'l' :: 'l' :: r => jsonRun fuel stack (.jdone .null r)
      | 't' :: 'r' :: 'u' :: 'e' :: r => jsonRun fuel stack (.jdone (.bool true) r)
      | 'f' :: 'a' :: 'l' :: 's' :: 'e' :: r => jsonRun fuel stack (.jdone (.bool false) r)
      | '"' :: r =>
        match jsonStrGo r [] with
        | some (s, r') => jsonRun fuel stack (.jdone (.str s) r')
        | none => jsonErr
      | '[' :: r =>
        match jsonSkipWs r with
        | ']' :: r' => jsonRun fuel stack (.jdone (.arr []) r')
        | _ => jsonRun fuel (.arrF [] :: stack) (.value r)
      | c :: r =>
        if c = Char.ofNat 123 then
          match jsonSkipWs r with
          | c' :: r' =>
            if c' = Char.ofNat 125 then jsonRun fuel stack (.jdone (.obj []) r')
            else jsonRun fuel stack (.keyState [] (jsonSkipWs r))
          | [] => jsonErr
        else
          match jsonNum (c :: r) with
          | some (q, r') => jsonRun fuel stack (.jdone (.num q) r')
          | none => jsonErr
      | [] => jsonErr
    | .keyState acc rem =>
      match jsonSkipWs rem with
      | '"' :: r =>
        match jsonStrGo r [] with
        | some (key, r') =>
          match jsonSkipWs r' with
          | ':' :: r2 => jsonRun fuel (.objF acc key :: stack) (.value r2)
          | _ => jsonErr
        | none => jsonErr
      | _ => jsonErr
    | .jdone v rem =>
      match stack with
      | [] => if jsonSkipWs rem = [] then .ok v else jsonErr
      | .arrF acc :: stk =>
        match jsonSkipWs rem with
        | ',' :: r => jsonRun fuel (.arrF (acc ++ [v]) :: stk) (.value r)
        | ']' :: r => jsonRun fuel stk (.jdone (.arr (acc ++ [v])) r)
        | _ => jsonErr
      | .objF acc key :: stk =>
        match jsonSkipWs rem with
        | ',' :: r => jsonRun fuel stk (.keyState (acc ++ [(key, v)]) r)
        | c :: r =>
          if c = Char.ofNat 125 then jsonRun fuel stk (.jdone (.obj (acc ++ [(key, v)])) r)
          else jsonErr
        | [] => jsonErr

/-- `JSON.parse` (subset: exact numbers, `\uXXXX` escapes, no surrogate
pairing — the decoders only inspect the numeric fields of
`header.json`). -/
def jsonParse (s : List Char) : Except (List Char) Json :=
  jsonRun (3 * s.length + 8) [] (.value s)

/-- JS property access `j[k]` (on an object the last assignment of a
duplicated key wins; on any non-object it is `undefined`). -/
def jProp (j : Json) (k : List Char) : Option Json :=
  match j with
  | .obj kvs => (kvs.reverse.find? (fun kv => kv.1 = k)).map (fun kv => kv.2)
  | _ => none

/-- `TrxHeader` after validation: exact 4×4 matrix, integer dimensions
and counts. -/
structure TrxHeader where
  voxelToRasmm : List (List Q)
  dimensions : ℤ × ℤ × ℤ
  nbStreamlines : ℕ
  nbVertices : ℕ
deriving DecidableEq, Repr

/-- All elements numeric (`row.every(v => typeof v === 'number')`). -/
def asNums (xs : List Json) : Option (List Q) :=
  xs.mapM (fun j => match j with | .num q => some q | _ => none)

/-- `Number.isInteger(v) && v >= 0` for a model rational. -/
def isNonnegInt (q : Q) : Prop := q.den = 1 ∧ 0 ≤ q.num

instance (q : Q) : Decidable (isNonnegInt q) := by
  unfold isNonnegInt; infer_instance

/-- `validateTrxHeader` of `trxParser.ts`.  (`typeof x === 'object'`
holds for JSON objects, arrays and `null`; the `=== null` disjunct
rejects `null`.) -/
def validateTrxHeader (j : Json) : Except (List Char) TrxHeader :=
  let isObjLike : Bool := match j with | .obj _ => true | .arr _ => true | _ => false
  if isObjLike = false then .error ("Invalid TRX header: not an object").data
  else
    match jProp j (("VOXEL_TO_RASMM").data) with
    | some (.arr rows) =>
      if rows.length ≠ 4 then
        .error ("Invalid TRX header: VOXEL_TO_RASMM must be a 4x4 matrix").data
      else
        match rows.mapM (fun row => match row with
          | .arr r => if r.length = 4 then asNums r else none
          | _ => none) with
        | none =>
          .error ("Invalid TRX header: VOXEL_TO_RASMM rows must be arrays of 4 numbers").data
        | some m =>
          match jProp j (("DIMENSIONS").data) with
          | some (.arr ds) =>
            match asNums ds with
            | some qs =>
              if ds.length = 3 ∧ ∀ q ∈ qs, isNonnegInt q then
                let dims := (qs.getD 0 (Q.ofNat 0), qs.getD 1 (Q.ofNat 0), qs.getD 2 (Q.ofNat 0))
                match jProp j (("NB_STREAMLINES").data) with
                | some (.num ns) =>
                  if isNonnegInt ns then
                    match jProp j (("NB_VERTICES").data) with
                    | some (.num nv) =>
                      if isNonnegInt nv then
                        .ok ⟨m, (dims.1.num, dims.2.1.num, dims.2.2.num),
                          ns.num.toNat, nv.num.toNat⟩
                      else .error ("Invalid TRX header: NB_VERTICES must be a non-negative integer").data
                    | _ => .error ("Invalid TRX header: NB_VERTICES must be a non-negative integer").data
                  else .error ("Invalid TRX header: NB_STREAMLINES must be a non-negative integer").data
                | _ => .error ("Invalid TRX header: NB_STREAMLINES must be a non-negative integer").data
              else .error ("Invalid TRX header: DIMENSIONS must be 3 non-negative integers").data
            | none => .error ("Invalid TRX header: DIMENSIONS must be 3 non-negative integers").data
          | _ => .error ("Invalid TRX header: DIMENSIONS must be 3 non-negative integers").data
    | _ => .error ("Invalid TRX header: VOXEL_TO_RASMM must be a 4x4 matrix").data

/-- `filename.split('/').pop() || filename` (the popped last segment of
an all-slash-terminated name is the empty string, which is falsy). -/
def baseName (name : List Char) : List Char :=
  let b := (splitCharJs '/' name).getLastD []
  if b = [] then name else b

/-- `parsePositions`: element type from the filename's final
dot-separated token; bytes decoded as a flat little-endian array.
A byte length that is not a multiple of the element width makes the
typed-array constructor throw `RangeError`.  (The source also computes
an unused `componentCount` from the second-to-last token; storing a
float64 into a `Float32Array` would round it to binary32, which no
claim observes.) -/
def parsePositions (filename : List Char) (data : List ℕ) : Except (List Char) (List F) :=
  let parts := splitCharJs '.' (baseName filename)
  let dtype := lowerJs (parts.getLastD [])
  let b := listBuf data
  if dtype = ("float16").data then
    if data.length % 2 = 0 then
      .ok ((List.range (data.length / 2)).map (fun i => decodeFloatBits 5 10 (getU16 b (2 * i))))
    else .error ("RangeError").data
  else if dtype = ("float32").data then
    if data.length % 4 = 0 then
      .ok ((List.range (data.length / 4)).map (fun i => getF32LE b (4 * i)))
    else .error ("RangeError").data
  else if dtype = ("float64").data then
    if data.length % 8 = 0 then
      .ok ((List.range (data.length / 8)).map (fun i => getF64LE b (8 * i)))
    else .error ("RangeError").data
  else .error (("Unsupported positions data type: ").data ++ dtype)

/-- `parseOffsets`: `uint64`/`int64`/`uint32`/`int32`, little-endian.
(`Number(BigInt)` rounds beyond `2^53` in JS; the spec puts such values
out of scope and the model keeps them exact.) -/
def parseOffsets (filename : List Char) (data : List ℕ) : Except (List Char) (List ℤ) :=
  let dtype := lowerJs ((splitCharJs '.' (baseName filename)).getLastD [])
  let b := listBuf data
  if dtype = ("uint64").data then
    if data.length % 8 = 0 then
      .ok ((List.range (data.length / 8)).map (fun i => (getLE b (8 * i) 8 : ℤ)))
    else .error ("RangeError").data
  else if dtype = ("int64").data then
    if data.length % 8 = 0 then
      .ok ((List.range (data.length / 8)).map (fun i => toSigned 64 (getLE b (8 * i) 8)))
    else .error ("RangeError").data
  else if dtype = ("uint32").data then
    if data.length % 4 = 0 then
      .ok ((List.range (data.length / 4)).map (fun i => (getU32 b (4 * i) : ℤ)))
    else .error ("RangeError").data
  else if dtype = ("int32").data then
    if data.length % 4 = 0 then
      .ok ((List.range (data.length / 4)).map (fun i => getI32 b (4 * i)))
    else .error ("RangeError").data
  else .error (("Unsupported offsets data type: ").data ++ dtype)

/-- JS truncation toward zero (`ToIntegerOrInfinity` on a finite value). -/
def jsTrunc (q : Q) : ℤ := q.truncQ

/-- Relative index resolution of `TypedArray.slice`: NaN to 0, negative
values from the end, clamped into `[0, len]`. -/
def clampIdx (x : F) (len : ℕ) : ℕ :=
  match x with
  | F.nan => 0
  | F.inf true => len
  | F.inf false => 0
  | F.val q =>
    let t := jsTrunc q
    if t < 0 then ((len : ℤ) + t).toNat else min t.toNat len

/-- `positions.slice(startIdx, endIdx)`. -/
def jsSliceF (l : List F) (a b : F) : List F :=
  (l.take (clampIdx b l.length)).drop (clampIdx a l.length)

/-- `buildStreamlines` of `trxParser.ts`.  Indexing `offsets` out of
range yields `undefined`, and `Number(undefined)` is NaN, so for
`i ≥ offsets.length` the start offset is NaN (and `NaN < 2` is false). -/
def buildStreamlines (positions : List F) (offsets : List ℤ) (nbStreamlines : ℕ) :
    List Streamline :=
  let totalVertices : Q := Q.mk0 positions.length 3
  (List.range nbStreamlines).foldl (fun acc i =>
    let startOffset : F :=
      if i < offsets.length then F.val (Q.ofInt (offsets.getD i 0)) else F.nan
    let endOffset : F :=
      if i + 1 < offsets.length then F.val (Q.ofInt (offsets.getD (i + 1) 0))
      else F.val totalVertices
    let numPoints := F.subF endOffset startOffset
    if F.ltF numPoints (F.val (Q.ofNat 2)) then acc
    else
      acc ++ [⟨jsSliceF positions (F.mulF startOffset (F.val (Q.ofNat 3)))
        (F.mulF endOffset (F.val (Q.ofNat 3))), numPoints, none, none⟩]) []

/-- `extractVoxelSize` without the final componentwise `Math.sqrt`
(squared column norms; see `TractographyHeader.voxelSizeSq`).  The
source wraps the column arithmetic in `try/catch`, but no exception can
occur on the validated 4×4 matrix; short matrices return `null`. -/
def extractVoxelSizeSq (m : List (List Q)) : Option (Q × Q × Q) :=
  if m.length < 3 then none
  else
    let at_ := fun i j => ((m.getD i []).getD j (Q.ofNat 0))
    let col := fun j =>
      ((at_ 0 j).mulQ (at_ 0 j)).addQ
        (((at_ 1 j).mulQ (at_ 1 j)).addQ ((at_ 2 j).mulQ (at_ 2 j)))
    some (col 0, col 1, col 2)

/-- `parseTrxFile`: size gate, ZIP walk, `header.json` (top-level or
nested), `positions.*` and `offsets.*` members, reconstruction, unified
header with `nCount = streamlines.length`.  `inflate` abstracts the
external `zlib.inflateRawSync`. -/
def parseTrxFile (inflate : List ℕ → List ℕ) (buf : ℕ → ℕ) (len : ℕ) :
    Except (List Char) TractographyData :=
  if MAX_FILE_SIZE < len then
    .error ("TRX file too large: exceeds limit").data
  else
    match zipWalk inflate buf len (len + 1) 0 [] with
    | .error e => .error e
    | .ok entries =>
      match entries.find? (fun e =>
        e.name = ("header.json").data || strEnds (("/header.json").data) e.name) with
      | none => .error ("Invalid TRX file: missing header.json").data
      | some headerEntry =>
        match jsonParse (headerEntry.data.map Char.ofNat) with
        | .error e => .error e
        | .ok jv =>
          match validateTrxHeader jv with
          | .error e => .error e
          | .ok trxHeader =>
            match entries.find? (fun e =>
              strStarts (("positions.").data) e.name ||
                strHas (("/positions.").data) e.name) with
            | none => .error ("Invalid TRX file: missing positions file").data
            | some positionsEntry =>
              match entries.find? (fun e =>
                strStarts (("offsets.").data) e.name ||
                  strHas (("/offsets.").data) e.name) with
              | none => .error ("Invalid TRX file: missing offsets file").data
              | some offsetsEntry =>
                match parsePositions positionsEntry.name positionsEntry.data with
                | .error e => .error e
                | .ok positions =>
                  match parseOffsets offsetsEntry.name offsetsEntry.data with
                  | .error e => .error e
                  | .ok offsets =>
                    let streamlines :=
                      buildStreamlines positions offsets trxHeader.nbStreamlines
                    .ok ⟨{ format := .trx,
                           dim := (Q.ofInt trxHeader.dimensions.1,
                             Q.ofInt trxHeader.dimensions.2.1,
                             Q.ofInt trxHeader.dimensions.2.2)
                           voxelSizeSq :=
                             (extractVoxelSizeSq trxHeader.voxelToRasmm).getD
                               DEFAULT_VOXEL_SIZE_SQ
                           nCount := streamlines.length, version := 1 }, streamlines⟩

/-! ## Concrete input fixtures used by counterexamples and witnesses -/

/-- Bytes of an ASCII string. -/
def strBytes (s : List Char) : List ℕ := s.map Char.toNat

/-- 2-byte little-endian encoding. -/
def le2 (n : ℕ) : List ℕ := [n % 256, n / 256 % 256]

/-- 4-byte little-endian encoding. -/
def le4 (n : ℕ) : List ℕ := [n % 256, n / 256 % 256, n / 65536 % 256, n / 16777216 % 256]

/-- A minimal valid 1000-byte TRK header: `TRACK` magic, all-zero
fields, declared streamline count `declaredCount`, `hdrSize = 1000`. -/
def trkHeaderBytes (declaredCount : ℕ) : List ℕ :=
  strBytes (("TRACK").data) ++ List.replicate 983 0 ++ le4 declaredCount ++ le4 2 ++ le4 1000

/-- TRK fixture: header declaring `declaredCount` streamlines followed
by one record of `np` points (all-zero coordinates). -/
def trkFix (declaredCount np : ℕ) : List ℕ :=
  trkHeaderBytes declaredCount ++ le4 np ++ List.replicate (12 * np) 0

/-- TCK fixture: minimal header, then `np` zero points, then an
all-`+Infinity` sentinel triplet (binary32 `+Infinity` is
`00 00 80 7f`). -/
def tckFix (np : ℕ) : List ℕ :=
  strBytes (("mrtrix tracks\nEND\n").data) ++ List.replicate (12 * np) 0 ++
    [0, 0, 128, 127] ++ [0, 0, 128, 127] ++ [0, 0, 128, 127]

/-- One STORE-compressed ZIP local entry. -/
def zipEntryBytes (name : List Char) (data : List ℕ) : List ℕ :=
  [80, 75, 3, 4] ++ List.replicate 4 0 ++ [0, 0] ++ List.replicate 8 0 ++
    le4 data.length ++ le4 data.length ++ le2 name.length ++ [0, 0] ++
    strBytes name ++ data

/-- The `header.json` text of the TRX fixture (identity transform,
`DIMENSIONS [1,1,1]`, 2 streamlines, 4 vertices). -/
def trxJsonText : List Char :=
  ("\x7b\"VOXEL_TO_RASMM\":[[1,0,0,0],[0,1,0,0],[0,0,1,0],[0,0,0,1]],\"DIMENSIONS\":[1,1,1],\"NB_STREAMLINES\":2,\"NB_VERTICES\":4\x7d").data

/-- TRX fixture: STORE archive with `header.json`,
`positions.3.float32` holding 4 zero vertices, `offsets.uint32 = [0,2]`. -/
def trxFix : List ℕ :=
  zipEntryBytes (("header.json").data) (strBytes trxJsonText) ++
    zipEntryBytes (("positions.3.float32").data) (List.replicate 48 0) ++
    zipEntryBytes (("offsets.uint32").data) (le4 0 ++ le4 2)

/-! ## Claims -/

set_option maxRecDepth 1000000

/-- C1 (counterexample): the unified-count property fails for
`parseTrkFile`.  On a well-formed TRK buffer whose header declares 0
streamlines but whose body holds one 2-point record, the decode succeeds
and returns the raw header with `nCount = 0` while one streamline was
actually decoded. -/
theorem trk_nCount_counterexample :
    (parseTrkFile (listBuf (trkFix 0 2)) (trkFix 0 2).length).toOption.map
        (fun r => (r.header.nCount, r.streamlines.length)) = some (0, 1) ∧
      (0 : ℤ) ≠ ((1 : ℕ) : ℤ) := by
  constructor
  · decide
  · decide

/-- C1 (amended): `parseTckFile` and `parseTrxFile` set the unified
header's `nCount` to the decoded streamline count; `parseTrkFile`
instead returns the raw TRK header unchanged, whose `nCount` is the
32-bit count declared in the file (bytes 988–991) and may differ from
the decoded count. -/
theorem unified_nCount_matches (buf : ℕ → ℕ) (len : ℕ) :
    (∀ r, parseTckFile buf len = .ok r → r.header.nCount = r.streamlines.length) ∧
    (∀ inflate r, parseTrxFile inflate buf len = .ok r →
      r.header.nCount = r.streamlines.length) ∧
    (∀ r, parseTrkFile buf len = .ok r →
      r.header = trkParseHeader buf ∧ r.header.nCount = getI32 buf 988) := by
  refine ⟨?_, ?_, ?_⟩
  · intro r hr
    unfold parseTckFile at hr
    dsimp only at hr
    repeat' split at hr
    all_goals try exact Except.noConfusion hr
    cases hr
    rfl
  · intro inflate r hr
    unfold parseTrxFile at hr
    dsimp only at hr
    repeat' split at hr
    all_goals try exact Except.noConfusion hr
    cases hr
    rfl
  · intro r hr
    unfold parseTrkFile at hr
    dsimp only at hr
    repeat' split at hr
    all_goals try exact Except.noConfusion hr
    cases hr
    exact ⟨rfl, rfl⟩

/-- C1 witness: the amended theorem applied to the concrete TCK fixture
(its 2-point streamline is decoded twice by the `Infinity` exit, and
`nCount = 2` matches the returned length). -/
theorem unified_nCount_matches_witness :
    ({ format := .tck, dim := DEFAULT_DIMENSIONS, voxelSizeSq := DEFAULT_VOXEL_SIZE_SQ,
        nCount := 2, version := 1 } : TractographyHeader).nCount =
      [(⟨List.replicate 6 (F.val (Q.ofNat 0)), F.val (Q.ofNat 2), none, none⟩ :
        Streamline),
       ⟨List.replicate 6 (F.val (Q.ofNat 0)), F.val (Q.ofNat 2), none, none⟩].length :=
  (unified_nCount_matches (listBuf (tckFix 2)) (tckFix 2).length).1
    ⟨{ format := .tck, dim := DEFAULT_DIMENSIONS, voxelSizeSq := DEFAULT_VOXEL_SIZE_SQ,
        nCount := 2, version := 1 },
      [⟨List.replicate 6 (F.val (Q.ofNat 0)), F.val (Q.ofNat 2), none, none⟩,
       ⟨List.replicate 6 (F.val (Q.ofNat 0)), F.val (Q.ofNat 2), none, none⟩]⟩
    (by decide)

/-! Helper lemmas for the point-count invariants. -/

theorem Q.extQ (a b : Q) (h1 : a.num = b.num) (h2 : a.den = b.den) : a = b := by
  cases a
  cases b
  dsimp at h1 h2
  subst h1
  subst h2
  rfl

theorem Q.mk0_three (len : ℕ) (h : 3 ∣ len) : Q.mk0 (len : ℤ) 3 = Q.ofNat (len / 3) := by
  unfold Q.mk0 Q.ofNat
  have hg : Nat.gcd (len : ℤ).natAbs 3 = 3 := by
    rw [Int.natAbs_ofNat]
    rw [Nat.gcd_comm]
    exact Nat.gcd_eq_left h
  rw [hg]
  norm_num

theorem tckFinalize_points (cur : List F) (h3 : 3 ∣ cur.length) :
    ∀ s ∈ tckFinalize cur, ∃ n : ℕ, s.numPoints = F.val (Q.ofNat n) ∧ 2 ≤ n := by
  intro s hs
  unfold tckFinalize at hs
  split at hs
  · next h6 =>
    rcases List.mem_singleton.mp hs with rfl
    refine ⟨cur.length / 3, ?_, ?_⟩
    · simp [Q.mk0_three _ h3]
    · omega
  · exact absurd hs (List.not_mem_nil s)

theorem tckLoop_points (buf : ℕ → ℕ) (len : ℕ) (cfg : DtCfg) :
    ∀ fuel (offset : ℤ) acc cur,
      (∀ s ∈ acc, ∃ n : ℕ, s.numPoints = F.val (Q.ofNat n) ∧ 2 ≤ n) →
      3 ∣ cur.length →
      ∀ out, tckLoop buf len cfg fuel offset acc cur = .ok out →
        ∀ s ∈ out, ∃ n : ℕ, s.numPoints = F.val (Q.ofNat n) ∧ 2 ≤ n := by
  intro fuel
  induction fuel with
  | zero =>
    intro offset acc cur hacc h3 out hout s hs
    simp only [tckLoop] at hout
    cases hout
    rcases List.mem_append.mp hs with h | h
    · exact hacc s h
    · exact tckFinalize_points cur h3 s h
  | succ n ih =>
    intro offset acc cur hacc h3 out hout s hs
    simp only [tckLoop] at hout
    split at hout
    · split at hout
      · exact Except.noConfusion hout
      · split at hout
        · cases hout
          rcases List.mem_append.mp hs with h | h
          · rcases List.mem_append.mp h with h2 | h2
            · exact hacc s h2
            · exact tckFinalize_points cur h3 s h2
          · exact tckFinalize_points cur h3 s h
        · split at hout
          · refine ih _ _ _ ?_ (by simp) out hout s hs
            intro t ht
            rcases List.mem_append.mp ht with h | h
            · exact hacc t h
            · exact tckFinalize_points cur h3 t h
          · split at hout
            · exact Except.noConfusion hout
            · refine ih _ _ _ hacc ?_ out hout s hs
              simp only [List.length_append, List.length_cons, List.length_nil]
              omega
    · cases hout
      rcases List.mem_append.mp hs with h | h
      · exact hacc s h
      · exact tckFinalize_points cur h3 s h

theorem trkLoop_points (buf : ℕ → ℕ) (len : ℕ) (h : TrkHeader) :
    ∀ fuel offset acc,
      (∀ s ∈ acc, ∃ n : ℕ, s.numPoints = F.val (Q.ofNat n) ∧ 1 ≤ n ∧ n ≤ 100000) →
      ∀ s ∈ trkLoop buf len h fuel offset acc,
        ∃ n : ℕ, s.numPoints = F.val (Q.ofNat n) ∧ 1 ≤ n ∧ n ≤ 100000 := by
  intro fuel
  induction fuel with
  | zero =>
    intro offset acc hacc s hs
    simp only [trkLoop] at hs
    exact hacc s hs
  | succ n ih =>
    intro offset acc hacc s hs
    simp only [trkLoop] at hs
    split at hs
    · split at hs
      · split at hs
        · exact hacc s hs
        · next hguard =>
          split at hs
          · refine ih _ _ ?_ s hs
            intro t ht
            rcases List.mem_append.mp ht with hmem | hmem
            · exact hacc t hmem
            · rcases List.mem_singleton.mp hmem with rfl
              refine ⟨(getI32 buf offset).toNat, rfl, ?_, ?_⟩ <;> omega
          · exact hacc s hs
      · exact hacc s hs
    · exact hacc s hs

/-- C2 (counterexample): the TRK body loop accepts any record whose
point count lies in `(0, 100000]`, so a 1-point streamline is decoded
and emitted: on a well-formed TRK buffer holding one record with point
count 1, the decode succeeds and the result contains a streamline with
`numPoints = 1 < 2`. -/
theorem trk_single_point_counterexample :
    (parseTrkFile (listBuf (trkFix 0 1)) (trkFix 0 1).length).toOption.map
        (fun r => r.streamlines.map (fun s => s.numPoints)) =
      some [F.val (Q.ofNat 1)] ∧ ¬ 2 ≤ (1 : ℕ) := by
  constructor
  · decide
  · decide

/-- C2 (amended): every streamline decoded by `parseTckFile` has an
integer point count of at least 2; every streamline emitted by the TRX
`buildStreamlines` has a point count of at least 2 provided
`NB_STREAMLINES` does not exceed the offsets-array length (beyond it the
out-of-bounds `offsets[i]` reads make the count NaN); but `parseTrkFile`
guarantees only a point count in `[1, 100000]` — a 1-point streamline
can be emitted. -/
theorem min_point_count_invariant :
    (∀ buf len r, parseTckFile buf len = .ok r →
      ∀ s ∈ r.streamlines, ∃ n : ℕ, s.numPoints = F.val (Q.ofNat n) ∧ 2 ≤ n) ∧
    (∀ positions offsets nb, nb ≤ offsets.length →
      ∀ s ∈ buildStreamlines positions offsets nb,
        ∃ q : Q, s.numPoints = F.val q ∧ 2 ≤ q.toRat) ∧
    (∀ buf len r, parseTrkFile buf len = .ok r →
      ∀ s ∈ r.streamlines, ∃ n : ℕ, s.numPoints = F.val (Q.ofNat n) ∧
        1 ≤ n ∧ n ≤ 100000) := by
  refine ⟨?_, ?_, ?_⟩
  · intro buf len r hr
    unfold parseTckFile at hr
    dsimp only at hr
    split at hr
    · exact Except.noConfusion hr
    · split at hr
      · exact Except.noConfusion hr
      · split at hr
        · exact Except.noConfusion hr
        · split at hr
          · exact Except.noConfusion hr
          · next streamlines heq =>
            cases hr
            intro s hs
            unfold tckParseStreamlines at heq
            split at heq
            · exact Except.noConfusion heq
            · split at heq
              · exact tckLoop_points buf len _ _ _ [] [] (by simp) (by simp) _ heq s hs
              · cases heq
                simp [tckFinalize] at hs
  · intro positions offsets nb hnb s hs
    have key : ∀ (e s' : Q), ¬ F.ltF (F.subF (F.val e) (F.val s')) (F.val (Q.ofNat 2)) = true →
        ∃ q : Q, F.subF (F.val e) (F.val s') = F.val q ∧ 2 ≤ q.toRat := by
      intro e s' hlt
      refine ⟨Q.subQ e s', rfl, ?_⟩
      have h2 : ¬ ((Q.subQ e s').blt (Q.ofNat 2) = true) := by
        simpa [F.ltF, F.subF] using hlt
      rw [Q.blt_iff, Q.toRat_ofNat] at h2
      exact not_lt.mp h2
    unfold buildStreamlines at hs
    dsimp only at hs
    have main : ∀ (l : List ℕ) (acc : List Streamline), (∀ i ∈ l, i < offsets.length) →
        (∀ t ∈ acc, ∃ q : Q, t.numPoints = F.val q ∧ 2 ≤ q.toRat) →
        ∀ t ∈ l.foldl (fun acc i =>
          if F.ltF (F.subF (if i + 1 < offsets.length then F.val (Q.ofInt (offsets.getD (i + 1) 0))
              else F.val (Q.mk0 positions.length 3))
              (if i < offsets.length then F.val (Q.ofInt (offsets.getD i 0)) else F.nan))
            (F.val (Q.ofNat 2)) = true then acc
          else
            acc ++ [⟨jsSliceF positions
              (F.mulF (if i < offsets.length then F.val (Q.ofInt (offsets.getD i 0)) else F.nan)
                (F.val (Q.ofNat 3)))
              (F.mulF (if i + 1 < offsets.length then F.val (Q.ofInt (offsets.getD (i + 1) 0))
                else F.val (Q.mk0 positions.length 3)) (F.val (Q.ofNat 3))),
              F.subF (if i + 1 < offsets.length then F.val (Q.ofInt (offsets.getD (i + 1) 0))
                else F.val (Q.mk0 positions.length 3))
              (if i < offsets.length then F.val (Q.ofInt (offsets.getD i 0)) else F.nan),
              none, none⟩]) acc,
          ∃ q : Q, t.numPoints = F.val q ∧ 2 ≤ q.toRat := by
      intro l
      induction l with
      | nil => intro acc _ hacc t ht; exact hacc t ht
      | cons i rest ih =>
        intro acc hl hacc t ht
        refine ih _ (fun j hj => hl j (List.mem_cons_of_mem _ hj)) ?_ t ht
        intro u hu
        dsimp only at hu
        rw [if_pos (hl i (List.mem_cons_self i rest))] at hu
        by_cases hc : i + 1 < offsets.length
        · rw [if_pos hc] at hu
          split at hu
          · exact hacc u hu
          · next hge =>
            rcases List.mem_append.mp hu with hmem | hmem
            · exact hacc u hmem
            · rcases List.mem_singleton.mp hmem with rfl
              exact key _ _ hge
        · rw [if_neg hc] at hu
          split at hu
          · exact hacc u hu
          · next hge =>
            rcases List.mem_append.mp hu with hmem | hmem
            · exact hacc u hmem
            · rcases List.mem_singleton.mp hmem with rfl
              exact key _ _ hge
    exact main (List.range nb) []
      (fun i hi => lt_of_lt_of_le (List.mem_range.mp hi) hnb) (by simp) s hs
  · intro buf len r hr
    unfold parseTrkFile at hr
    dsimp only at hr
    repeat' split at hr
    all_goals try exact Except.noConfusion hr
    cases hr
    intro s hs
    exact trkLoop_points buf len _ _ _ _ (by simp) s hs

/-- C2 witness: the amended theorem's TCK clause applied to the
concrete TCK fixture (both returned copies of its 2-point streamline
satisfy the bound). -/
theorem min_point_count_invariant_witness :
    ∃ n : ℕ, (⟨List.replicate 6 (F.val (Q.ofNat 0)), F.val (Q.ofNat 2), none, none⟩ :
        Streamline).numPoints = F.val (Q.ofNat n) ∧ 2 ≤ n :=
  min_point_count_invariant.1 (listBuf (tckFix 2)) (tckFix 2).length
    ⟨{ format := .tck, dim := DEFAULT_DIMENSIONS, voxelSizeSq := DEFAULT_VOXEL_SIZE_SQ,
        nCount := 2, version := 1 },
      [⟨List.replicate 6 (F.val (Q.ofNat 0)), F.val (Q.ofNat 2), none, none⟩,
       ⟨List.replicate 6 (F.val (Q.ofNat 0)), F.val (Q.ofNat 2), none, none⟩]⟩
    (by decide) _ (by simp)

/-- TRK fixture whose single record declares 0 points (an invalid
count). -/
def trkFixInvalid : List ℕ := trkHeaderBytes 0 ++ le4 0

/-- C4: TRK body decoding is truncation-tolerant.  At any loop state:
a record point count outside `(0, 100000]` stops decoding and returns
the streamlines accumulated so far; so does reaching the header's
declared count (when positive), running out of buffer before the
4-byte count, or a record extending past the end of the buffer.  No
error is raised: whenever the size gate, header, magic and validation
pass, `parseTrkFile` returns `.ok`, whatever the body bytes are. -/
theorem trk_truncation_policy (buf : ℕ → ℕ) (len : ℕ) (h : TrkHeader)
    (fuel offset : ℕ) (acc : List Streamline) :
    (offset < len → trkBelowMax h acc.length → offset + 4 ≤ len →
      (getI32 buf offset ≤ 0 ∨ 100000 < getI32 buf offset) →
      trkLoop buf len h (fuel + 1) offset acc = acc) ∧
    (0 < h.nCount → h.nCount ≤ (acc.length : ℤ) →
      trkLoop buf len h (fuel + 1) offset acc = acc) ∧
    (len ≤ offset → trkLoop buf len h (fuel + 1) offset acc = acc) ∧
    (offset < len → trkBelowMax h acc.length → len < offset + 4 →
      trkLoop buf len h (fuel + 1) offset acc = acc) ∧
    (offset < len → trkBelowMax h acc.length → offset + 4 ≤ len →
      0 < getI32 buf offset → getI32 buf offset ≤ 100000 →
      len < offset + 4 + ((getI32 buf offset).toNat * (4 * (3 + h.nScalars.toNat)) +
        4 * h.nProperties.toNat) →
      trkLoop buf len h (fuel + 1) offset acc = acc) ∧
    (¬ MAX_FILE_SIZE < len → 1000 ≤ len →
      strStarts (("TRACK").data) (trkParseHeader buf).idString = true →
      validateTrkHeader (trkParseHeader buf) = .ok () →
      parseTrkFile buf len =
        .ok ⟨trkParseHeader buf, trkParseStreamlines buf len (trkParseHeader buf)⟩) := by
  refine ⟨?_, ?_, ?_, ?_, ?_, ?_⟩
  · intro h1 h2 h3 h4
    simp only [trkLoop]
    rw [if_pos ⟨h1, h2⟩, if_pos h3, if_pos h4]
  · intro h1 h2
    simp only [trkLoop]
    rw [if_neg]
    intro hcon
    have := hcon.2 h1
    omega
  · intro h1
    simp only [trkLoop]
    rw [if_neg]
    intro hcon
    omega
  · intro h1 h2 h3
    simp only [trkLoop]
    rw [if_pos ⟨h1, h2⟩, if_neg (by omega)]
  · intro h1 h2 h3 h4 h5 h6
    simp only [trkLoop]
    rw [if_pos ⟨h1, h2⟩, if_pos h3, if_neg (by omega)]
    try dsimp only
    rw [if_neg (by omega)]
  · intro h1 h2 h3 h4
    unfold parseTrkFile
    rw [if_neg h1, if_neg (by omega)]
    try dsimp only
    rw [if_neg (by simp [h3])]
    rw [h4]

/-- C4 witness: the policy applied to concrete states: a record with
point count 0 terminates the body loop of the invalid-count fixture at
offset 1000 with no streamlines, and the whole fixture decodes without
error to zero streamlines. -/
theorem trk_truncation_policy_witness :
    trkLoop (listBuf trkFixInvalid) trkFixInvalid.length
        (trkParseHeader (listBuf trkFixInvalid)) 1 1000 [] = [] ∧
      parseTrkFile (listBuf trkFixInvalid) trkFixInvalid.length =
        .ok ⟨trkParseHeader (listBuf trkFixInvalid),
          trkParseStreamlines (listBuf trkFixInvalid) trkFixInvalid.length
            (trkParseHeader (listBuf trkFixInvalid))⟩ :=
  ⟨(trk_truncation_policy (listBuf trkFixInvalid) trkFixInvalid.length
      (trkParseHeader (listBuf trkFixInvalid)) 0 1000 []).1
      (by decide) (by decide) (by decide) (by decide),
    (trk_truncation_policy (listBuf trkFixInvalid) trkFixInvalid.length
      (trkParseHeader (listBuf trkFixInvalid)) 0 1000 []).2.2.2.2.2
      (by decide) (by decide) (by decide) (by decide)⟩

/-- C3 (counterexample): the `Infinity` sentinel does not append the
in-progress streamline once.  The source pushes it and `break`s without
clearing `currentPoints`, so the post-loop end-of-buffer handler pushes
the same streamline again: on a TCK buffer holding one 2-point
streamline followed by the `Infinity` terminator, the decode succeeds
and returns that streamline twice (2 streamlines, not the single
appended streamline the claim describes). -/
theorem tck_double_append_counterexample :
    (parseTckFile (listBuf (tckFix 2)) (tckFix 2).length).toOption.map
        (fun r => r.streamlines) =
      some [⟨List.replicate 6 (F.val (Q.ofNat 0)), F.val (Q.ofNat 2), none, none⟩,
        ⟨List.replicate 6 (F.val (Q.ofNat 0)), F.val (Q.ofNat 2), none, none⟩] ∧
      (2 : ℕ) ≠ 1 := by
  constructor
  · decide
  · decide

/-- C3 (amended): the TCK body policy, at any loop state with a whole
triplet available (`x`,`y`,`z` its components): an infinite first
component finalizes the in-progress streamline, stops the whole decode,
and — because the source `break`s without clearing the accumulator and
the post-loop handler then re-finalizes it — appends the finalized
streamline twice; else a NaN in any component finalizes once, clears
the accumulator and continues; a valid triplet pushed onto 100000
already-accumulated points (300000 floats) is a fatal malformed-file
error; when no whole triplet remains, the accumulated streamline is
still finalized once (graceful EOF).  Finalization appends the
streamline exactly when it has at least 2 points (6 floats). -/
theorem tck_sentinel_policy (buf : ℕ → ℕ) (len : ℕ) (cfg : DtCfg) (fuel : ℕ)
    (offset : ℤ) (acc : List Streamline) (cur : List F) :
    (0 ≤ offset → offset + 3 * cfg.bytesPerFloat ≤ len →
      (readCfg cfg buf offset.toNat).isInfF = true →
      tckLoop buf len cfg (fuel + 1) offset acc cur =
        .ok (acc ++ tckFinalize cur ++ tckFinalize cur)) ∧
    (0 ≤ offset → offset + 3 * cfg.bytesPerFloat ≤ len →
      (readCfg cfg buf offset.toNat).isInfF = false →
      ((readCfg cfg buf offset.toNat).isNaNF ||
        (readCfg cfg buf (offset.toNat + cfg.bytesPerFloat)).isNaNF ||
        (readCfg cfg buf (offset.toNat + 2 * cfg.bytesPerFloat)).isNaNF) = true →
      tckLoop buf len cfg (fuel + 1) offset acc cur =
        tckLoop buf len cfg fuel (offset + 3 * cfg.bytesPerFloat)
          (acc ++ tckFinalize cur) []) ∧
    (0 ≤ offset → offset + 3 * cfg.bytesPerFloat ≤ len →
      (readCfg cfg buf offset.toNat).isInfF = false →
      ((readCfg cfg buf offset.toNat).isNaNF ||
        (readCfg cfg buf (offset.toNat + cfg.bytesPerFloat)).isNaNF ||
        (readCfg cfg buf (offset.toNat + 2 * cfg.bytesPerFloat)).isNaNF) = false →
      300000 ≤ cur.length →
      tckLoop buf len cfg (fuel + 1) offset acc cur = .error msgTckMalformed) ∧
    (len < offset + 3 * cfg.bytesPerFloat →
      tckLoop buf len cfg (fuel + 1) offset acc cur = .ok (acc ++ tckFinalize cur)) ∧
    (6 ≤ cur.length →
      tckFinalize cur = [⟨cur, F.val (Q.mk0 cur.length 3), none, none⟩]) ∧
    (cur.length < 6 → tckFinalize cur = []) := by
  refine ⟨?_, ?_, ?_, ?_, ?_, ?_⟩
  · intro h1 h2 h3
    simp only [tckLoop]
    rw [if_pos h2, if_neg (by omega)]
    try dsimp only
    rw [if_pos h3]
  · intro h1 h2 h3 h4
    simp only [tckLoop]
    rw [if_pos h2, if_neg (by omega)]
    try dsimp only
    rw [if_neg (by simp [h3]), if_pos h4]
  · intro h1 h2 h3 h4 h5
    simp only [tckLoop]
    rw [if_pos h2, if_neg (by omega)]
    try dsimp only
    rw [if_neg (by simp [h3]), if_neg (by simp [h4])]
    try dsimp only
    rw [if_pos (by simp; omega)]
  · intro h1
    simp only [tckLoop]
    rw [if_neg (by omega)]
  · intro h1
    unfold tckFinalize
    rw [if_pos h1]
  · intro h1
    unfold tckFinalize
    rw [if_neg (by omega)]

/-- C3 witness: the policy applied to concrete states: a `+Infinity`
triplet read with a 2-point streamline accumulated stops decoding and
appends that streamline twice, and a valid zero triplet read onto
300000 accumulated floats raises the malformed-file error. -/
theorem tck_sentinel_policy_witness :
    tckLoop (listBuf ([0, 0, 128, 127] ++ List.replicate 8 0)) 12 ⟨4, true, false⟩
        1 0 [] (List.replicate 6 (F.val (Q.ofNat 0))) =
      .ok [⟨List.replicate 6 (F.val (Q.ofNat 0)), F.val (Q.ofNat 2), none, none⟩,
        ⟨List.replicate 6 (F.val (Q.ofNat 0)), F.val (Q.ofNat 2), none, none⟩] ∧
      tckLoop (listBuf (List.replicate 12 0)) 12 ⟨4, true, false⟩ 1 0 []
          (List.replicate 300000 (F.val (Q.ofNat 0))) = .error msgTckMalformed :=
  ⟨((tck_sentinel_policy (listBuf ([0, 0, 128, 127] ++ List.replicate 8 0)) 12
      ⟨4, true, false⟩ 0 0 [] (List.replicate 6 (F.val (Q.ofNat 0)))).1
      (by decide) (by decide) (by decide)).trans (by decide),
    (tck_sentinel_policy (listBuf (List.replicate 12 0)) 12 ⟨4, true, false⟩ 0 0 []
      (List.replicate 300000 (F.val (Q.ofNat 0)))).2.2.1 (by decide) (by decide)
      (by decide) (by decide) (by rw [List.length_replicate])⟩

/-! Helper lemmas for TRK header validation. -/

theorem msg_ne_of_ne_pre {p1 p2 : List Char} (t1 t2 : List Char)
    (hlen : p1.length = p2.length) (hne : p1 ≠ p2) : p1 ++ t1 ≠ p2 ++ t2 := by
  intro h
  apply hne
  have h2 := congrArg (List.take p1.length) h
  rw [List.take_left, hlen, List.take_left] at h2
  exact h2

theorem msgs_ne {p1 p2 : List Char} (c t1 t2 : List Char)
    (hlen : p1.length = p2.length) (hne : p1 ≠ p2) :
    c ++ (p1 ++ t1) ≠ c ++ (p2 ++ t2) := fun h =>
  msg_ne_of_ne_pre t1 t2 hlen hne (List.append_cancel_left h)

theorem validateOk_facts (h : TrkHeader) (hok : validateTrkHeader h = .ok ()) :
    ¬(h.nScalars < 0 ∨ 10 < h.nScalars) ∧ ¬(h.nProperties < 0 ∨ 10 < h.nProperties) ∧
      (∀ i, ¬ dimBad h i) ∧ (∀ i, ¬ voxelBad h i) ∧ h.hdrSize = 1000 := by
  unfold validateTrkHeader at hok
  repeat' split at hok
  all_goals try exact Except.noConfusion hok
  next h1 h2 hd0 hd1 hd2 hv0 hv1 hv2 h9 =>
  refine ⟨h1, h2, ?_, ?_, by omega⟩
  · intro i
    match i with
    | 0 => exact hd0
    | 1 => exact hd1
    | _ + 2 => simpa [dimBad, dimAt] using hd2
  · intro i
    match i with
    | 0 => exact hv0
    | 1 => exact hv1
    | _ + 2 => simpa [voxelBad, voxelAt] using hv2

/-- C7: TRK header validation fails closed with a distinct error per
bound: validation fails exactly when some field violates its bound; the
first violated rule in source order determines the error, whose message
names that rule; the five rule messages are pairwise distinct for all
interpolated values; a validation error propagates out of
`parseTrkFile` verbatim; and a decoded header with `hdrSize ≠ 1000` or
`nScalars = 11` makes `parseTrkFile` fail outright (no streamlines are
returned, the result being an error). -/
theorem trk_header_validation (h : TrkHeader) (buf : ℕ → ℕ) (len : ℕ) :
    (((h.nScalars < 0 ∨ 10 < h.nScalars) ∨ (h.nProperties < 0 ∨ 10 < h.nProperties) ∨
        (∃ i < 3, dimBad h i) ∨ (∃ i < 3, voxelBad h i) ∨ h.hdrSize ≠ 1000) ↔
      ∃ e, validateTrkHeader h = .error e) ∧
    ((h.nScalars < 0 ∨ 10 < h.nScalars) →
      validateTrkHeader h = .error (msgNScalars h.nScalars)) ∧
    (¬(h.nScalars < 0 ∨ 10 < h.nScalars) → (h.nProperties < 0 ∨ 10 < h.nProperties) →
      validateTrkHeader h = .error (msgNProperties h.nProperties)) ∧
    (∀ i < 3, ¬(h.nScalars < 0 ∨ 10 < h.nScalars) →
      ¬(h.nProperties < 0 ∨ 10 < h.nProperties) → (∀ j < i, ¬ dimBad h j) → dimBad h i →
      validateTrkHeader h = .error (msgDim i (dimAt h i))) ∧
    (∀ i < 3, ¬(h.nScalars < 0 ∨ 10 < h.nScalars) →
      ¬(h.nProperties < 0 ∨ 10 < h.nProperties) → (∀ j, ¬ dimBad h j) →
      (∀ j < i, ¬ voxelBad h j) → voxelBad h i →
      validateTrkHeader h = .error (msgVoxel i (voxelAt h i))) ∧
    (¬(h.nScalars < 0 ∨ 10 < h.nScalars) → ¬(h.nProperties < 0 ∨ 10 < h.nProperties) →
      (∀ j, ¬ dimBad h j) → (∀ j, ¬ voxelBad h j) → h.hdrSize ≠ 1000 →
      validateTrkHeader h = .error (msgHdrSize h.hdrSize)) ∧
    (∀ (a b : ℤ) (i j : ℕ) (x : F),
      msgNScalars a ≠ msgNProperties b ∧ msgNScalars a ≠ msgDim i b ∧
      msgNScalars a ≠ msgVoxel i x ∧ msgNScalars a ≠ msgHdrSize b ∧
      msgNProperties a ≠ msgDim i b ∧ msgNProperties a ≠ msgVoxel i x ∧
      msgNProperties a ≠ msgHdrSize b ∧ msgDim i a ≠ msgVoxel j x ∧
      msgDim i a ≠ msgHdrSize b ∧ msgVoxel i x ≠ msgHdrSize b) ∧
    (∀ e, ¬ MAX_FILE_SIZE < len → 1000 ≤ len →
      strStarts (("TRACK").data) (trkParseHeader buf).idString = true →
      validateTrkHeader (trkParseHeader buf) = .error e →
      parseTrkFile buf len = .error e) ∧
    ((trkParseHeader buf).hdrSize ≠ 1000 ∨ (trkParseHeader buf).nScalars = 11 →
      ∃ e, parseTrkFile buf len = .error e) := by
  refine ⟨?_, ?_, ?_, ?_, ?_, ?_, ?_, ?_, ?_⟩
  · constructor
    · intro hv
      unfold validateTrkHeader
      repeat' split
      all_goals try exact ⟨_, rfl⟩
      next h1 h2 hd0 hd1 hd2 hv0 hv1 hv2 h9 =>
      exfalso
      rcases hv with hc | hc | ⟨i, hi, hc⟩ | ⟨i, hi, hc⟩ | hc
      · exact h1 hc
      · exact h2 hc
      · interval_cases i
        · exact hd0 hc
        · exact hd1 hc
        · exact hd2 hc
      · interval_cases i
        · exact hv0 hc
        · exact hv1 hc
        · exact hv2 hc
      · omega
    · rintro ⟨e, he⟩
      by_contra hno
      have hn1 : ¬(h.nScalars < 0 ∨ 10 < h.nScalars) := fun hc => hno (Or.inl hc)
      have hn2 : ¬(h.nProperties < 0 ∨ 10 < h.nProperties) := fun hc =>
        hno (Or.inr (Or.inl hc))
      have hnd : ∀ i < 3, ¬ dimBad h i := fun i hi hc =>
        hno (Or.inr (Or.inr (Or.inl ⟨i, hi, hc⟩)))
      have hnv : ∀ i < 3, ¬ voxelBad h i := fun i hi hc =>
        hno (Or.inr (Or.inr (Or.inr (Or.inl ⟨i, hi, hc⟩))))
      have hn5 : ¬ h.hdrSize ≠ 1000 := fun hc =>
        hno (Or.inr (Or.inr (Or.inr (Or.inr hc))))
      have hok : validateTrkHeader h = .ok () := by
        unfold validateTrkHeader
        rw [if_neg hn1, if_neg hn2, if_neg (hnd 0 (by omega)), if_neg (hnd 1 (by omega)),
          if_neg (hnd 2 (by omega)), if_neg (hnv 0 (by omega)), if_neg (hnv 1 (by omega)),
          if_neg (hnv 2 (by omega)), if_neg hn5]
      rw [hok] at he
      exact Except.noConfusion he
  · intro h1
    unfold validateTrkHeader
    rw [if_pos h1]
  · intro h1 h2
    unfold validateTrkHeader
    rw [if_neg h1, if_pos h2]
  · intro i hi h1 h2 hj hbad
    interval_cases i
    · unfold validateTrkHeader
      rw [if_neg h1, if_neg h2, if_pos hbad]
    · unfold validateTrkHeader
      rw [if_neg h1, if_neg h2, if_neg (hj 0 (by omega)), if_pos hbad]
    · unfold validateTrkHeader
      rw [if_neg h1, if_neg h2, if_neg (hj 0 (by omega)), if_neg (hj 1 (by omega)),
        if_pos hbad]
  · intro i hi h1 h2 hd hj hbad
    interval_cases i
    · unfold validateTrkHeader
      rw [if_neg h1, if_neg h2, if_neg (hd 0), if_neg (hd 1), if_neg (hd 2), if_pos hbad]
    · unfold validateTrkHeader
      rw [if_neg h1, if_neg h2, if_neg (hd 0), if_neg (hd 1), if_neg (hd 2),
        if_neg (hj 0 (by omega)), if_pos hbad]
    · unfold validateTrkHeader
      rw [if_neg h1, if_neg h2, if_neg (hd 0), if_neg (hd 1), if_neg (hd 2),
        if_neg (hj 0 (by omega)), if_neg (hj 1 (by omega)), if_pos hbad]
  · intro h1 h2 hd hv h9
    unfold validateTrkHeader
    rw [if_neg h1, if_neg h2, if_neg (hd 0), if_neg (hd 1), if_neg (hd 2),
      if_neg (hv 0), if_neg (hv 1), if_neg (hv 2), if_pos h9]
  · intro a b i j x
    unfold msgNScalars msgNProperties msgDim msgVoxel msgHdrSize
    refine ⟨?_, ?_, ?_, ?_, ?_, ?_, ?_, ?_, ?_, ?_⟩ <;>
      exact msgs_ne _ _ _ (by decide) (by decide)
  · intro e h1 h2 h3 he
    unfold parseTrkFile
    rw [if_neg h1, if_neg (by omega)]
    try dsimp only
    rw [if_neg (by simp [h3]), he]
  · intro hbad
    unfold parseTrkFile
    try dsimp only
    repeat' split
    all_goals try exact ⟨_, rfl⟩
    next u hok =>
    exfalso
    cases u
    obtain ⟨k1, k2, kd, kv, k5⟩ := validateOk_facts _ hok
    rcases hbad with hc | hc
    · exact hc k5
    · exact k1 (by omega)

/-- TRK fixture: well-formed 1000-byte header except `nScalars = 11`
(out of the `[0,10]` bound). -/
def trkFixBadScalars : List ℕ :=
  strBytes (("TRACK").data) ++ List.replicate 31 0 ++ le2 11 ++ List.replicate 950 0 ++
    le4 0 ++ le4 2 ++ le4 1000

/-- C7 witness: the validation theorem applied to the concrete
`nScalars = 11` fixture: validation reports the nScalars-specific error
and `parseTrkFile` fails on it. -/
theorem trk_header_validation_witness :
    validateTrkHeader (trkParseHeader (listBuf trkFixBadScalars)) =
        .error (msgNScalars 11) ∧
      ∃ e, parseTrkFile (listBuf trkFixBadScalars) trkFixBadScalars.length = .error e := by
  constructor
  · have h := (trk_header_validation (trkParseHeader (listBuf trkFixBadScalars))
      (listBuf trkFixBadScalars) trkFixBadScalars.length).2.1 (by decide)
    have h11 : (trkParseHeader (listBuf trkFixBadScalars)).nScalars = 11 := by decide
    rw [h11] at h
    exact h
  · exact (trk_header_validation (trkParseHeader (listBuf trkFixBadScalars))
      (listBuf trkFixBadScalars) trkFixBadScalars.length).2.2.2.2.2.2.2.2
      (Or.inr (by decide))

/-- The sampling loop collects exactly the elements at `i, i+k, i+2k, …`
until `maxC` are held or the list is exhausted. -/
theorem sampleLoop_spec (l : List Streamline) (k maxC : ℕ) (hk : 1 ≤ k) :
    ∀ fuel i acc, l.length - i < fuel →
      sampleLoop l k maxC fuel i acc =
        acc ++ (List.range (min (maxC - acc.length) ((l.length - i + k - 1) / k))).map
          (fun j => l.getD (i + j * k) default) := by
  intro fuel
  induction fuel with
  | zero => intro i acc hfuel; exact absurd hfuel (by omega)
  | succ fuel ih =>
    intro i acc hfuel
    simp only [sampleLoop]
    by_cases hcond : i < l.length ∧ acc.length < maxC
    · rw [if_pos hcond]
      rw [ih (i + k) (acc ++ [l.getD i default]) (by omega)]
      have hcnt : (l.length - i + k - 1) / k = (l.length - (i + k) + k - 1) / k + 1 := by
        rcases le_or_lt k (l.length - i) with hak | hak
        · have h1 : l.length - i + k - 1 = (l.length - (i + k) + k - 1) + k := by omega
          rw [h1, Nat.add_div_right _ (by omega)]
        · have h1 : l.length - (i + k) = 0 := by omega
          have h2 : (l.length - i + k - 1) / k = 1 :=
            Nat.div_eq_of_lt_le (by omega) (by omega)
          rw [h1, h2, Nat.div_eq_of_lt (by omega)]
      simp only [List.length_append, List.length_cons, List.length_nil, List.length_singleton]
      have hmin : min (maxC - acc.length) ((l.length - i + k - 1) / k) =
          min (maxC - (acc.length + 1)) ((l.length - (i + k) + k - 1) / k) + 1 := by
        rw [hcnt]
        have h3 : maxC - acc.length = (maxC - (acc.length + 1)) + 1 := by omega
        rw [h3, Nat.succ_min_succ]
      rw [hmin, List.range_succ_eq_map, List.map_cons, List.map_map]
      rw [List.append_assoc, List.singleton_append]
      congr 1
      all_goals try simp
      all_goals
        intro a ha hb
        congr 1
        ring_nf
    · rw [if_neg hcond]
      have hz : min (maxC - acc.length) ((l.length - i + k - 1) / k) = 0 := by
        rcases not_and_or.mp hcond with hc | hc
        · push_neg at hc
          have h0 : l.length - i = 0 := by omega
          rw [h0, Nat.div_eq_of_lt (by omega)]
          simp
        · push_neg at hc
          have h0 : maxC - acc.length = 0 := by omega
          rw [h0]
          simp
      rw [hz]
      simp

/-- C5: stride sampling.  When the input count is at most the
threshold, the first `min(maxCount, total)` streamlines are returned
unchanged with skip factor 1.  Otherwise the skip factor is
`⌈total / min(maxCount, total)⌉` (also in exact rational ceiling form)
and the output is exactly the elements at indices `0, k, 2k, …`, taken
until `maxCount` elements are collected or the input is exhausted; in
particular 10000 inputs with `maxCount = 1000`, threshold 5000 give
skip factor 10 and exactly the 1000 elements at indices 0, 10, 20, …. -/
theorem skip_sampling_spec (l : List Streamline) (maxCount skipThreshold : ℕ)
    (hmax : 1 ≤ maxCount) :
    (l.length ≤ skipThreshold →
      applySkipSampling l maxCount skipThreshold =
        ⟨l.take (min maxCount l.length), 1, l.length⟩) ∧
    (skipThreshold < l.length →
      applySkipSampling l maxCount skipThreshold =
        ⟨(List.range (min maxCount
            ((l.length + ceilNat l.length (min maxCount l.length) - 1) /
              ceilNat l.length (min maxCount l.length)))).map
          (fun j => l.getD (j * ceilNat l.length (min maxCount l.length)) default),
          ceilNat l.length (min maxCount l.length), l.length⟩) ∧
    (skipThreshold < l.length →
      ((ceilNat l.length (min maxCount l.length) : ℤ)) =
        ⌈(l.length : ℚ) / ((min maxCount l.length : ℕ) : ℚ)⌉) ∧
    (l.length = 10000 → maxCount = 1000 → skipThreshold = 5000 →
      (applySkipSampling l maxCount skipThreshold).skipFactor = 10 ∧
      (applySkipSampling l maxCount skipThreshold).sampled.length = 1000 ∧
      (applySkipSampling l maxCount skipThreshold).sampled =
        (List.range 1000).map (fun j => l.getD (j * 10) default)) := by
  have hkpos : skipThreshold < l.length → 1 ≤ ceilNat l.length (min maxCount l.length) := by
    intro hthr
    unfold ceilNat
    rw [Nat.le_div_iff_mul_le (by omega)]
    omega
  have hmain : skipThreshold < l.length →
      applySkipSampling l maxCount skipThreshold =
        ⟨(List.range (min maxCount
            ((l.length + ceilNat l.length (min maxCount l.length) - 1) /
              ceilNat l.length (min maxCount l.length)))).map
          (fun j => l.getD (j * ceilNat l.length (min maxCount l.length)) default),
          ceilNat l.length (min maxCount l.length), l.length⟩ := by
    intro hthr
    unfold applySkipSampling
    rw [if_neg (by omega)]
    try dsimp only
    rw [sampleLoop_spec l (ceilNat l.length (min maxCount l.length)) maxCount
      (hkpos hthr) (l.length + 1) 0 [] (by omega)]
    simp only [List.nil_append, List.length_nil, Nat.sub_zero, Nat.zero_add]
  refine ⟨?_, hmain, ?_, ?_⟩
  · intro hthr
    unfold applySkipSampling
    rw [if_pos hthr]
  · intro hthr
    set t := min maxCount l.length with ht
    have ht0 : 0 < t := by omega
    set d := ceilNat l.length t with hd
    have h1 : d * t ≤ l.length + t - 1 := by
      rw [hd]
      unfold ceilNat
      exact Nat.div_mul_le_self _ _
    have h2 : l.length + t - 1 < (d + 1) * t :=
      (Nat.div_lt_iff_lt_mul ht0).mp (show (l.length + t - 1) / t < d + 1 by
        unfold ceilNat at hd
        omega)
    have hsub : ((l.length + t - 1 : ℕ) : ℤ) = (l.length : ℤ) + t - 1 := by
      rw [Nat.cast_sub (by omega : 1 ≤ l.length + t)]
      push_cast
      ring
    have hz1 : (d : ℤ) * t ≤ (l.length : ℤ) + t - 1 := by
      have hc := Int.ofNat_le.mpr h1
      rw [hsub] at hc
      push_cast at hc
      exact hc
    have hz2 : (l.length : ℤ) + t - 1 < ((d : ℤ) + 1) * t := by
      have hc := Int.ofNat_lt.mpr h2
      rw [hsub] at hc
      push_cast at hc
      exact hc
    have htq : (0 : ℚ) < (t : ℚ) := by exact_mod_cast ht0
    rw [eq_comm, Int.ceil_eq_iff]
    have hq1 : (d : ℚ) * t ≤ (l.length : ℚ) + t - 1 := by exact_mod_cast hz1
    have hq2 : (l.length : ℚ) + t - 1 < ((d : ℚ) + 1) * t := by exact_mod_cast hz2
    have htq1 : (1 : ℚ) ≤ (t : ℚ) := by exact_mod_cast ht0
    constructor
    · rw [lt_div_iff₀ htq]
      push_cast
      nlinarith
    · rw [div_le_iff₀ htq]
      push_cast
      have h4 : (l.length : ℤ) - 1 < (d : ℤ) * (t : ℤ) := by nlinarith [hz2]
      have h5 : (l.length : ℤ) ≤ (d : ℤ) * (t : ℤ) := by
        linarith [Int.lt_iff_add_one_le.mp h4]
      exact_mod_cast h5
  · intro hL hM hT
    subst hM
    subst hT
    have hk10 : ceilNat l.length (min 1000 l.length) = 10 := by
      rw [hL]
      decide
    have heq := hmain (by omega)
    rw [heq]
    dsimp only
    rw [hk10, hL]
    norm_num

/-- C5 witness: the sampling theorem's concrete clause applied to a
10000-element list with `maxCount = 1000`, threshold 5000. -/
theorem skip_sampling_spec_witness :
    (applySkipSampling (List.replicate 10000 default) 1000 5000).skipFactor = 10 ∧
      (applySkipSampling (List.replicate 10000 default) 1000 5000).sampled.length = 1000 := by
  have h := (skip_sampling_spec (List.replicate 10000 default) 1000 5000 (by omega)).2.2.2
    (by rw [List.length_replicate]) rfl rfl
  exact ⟨h.1, h.2.1⟩

/-- Modelled from the claim's words (for refutation): a line that is
literally `END` followed by a newline (LF or CRLF), lying within the
first 10KB of the buffer: the three bytes start a line (buffer start or
after a newline), spell `END`, and are followed by LF or CR. -/
def specEndLineMarker (buf : ℕ → ℕ) (len i : ℕ) : Prop :=
  i + 3 < min len 10000 ∧
    (i = 0 ∨ u8 buf len (i - 1) = 10 ∨ u8 buf len (i - 1) = 13) ∧
    u8 buf len i = 69 ∧ u8 buf len (i + 1) = 78 ∧ u8 buf len (i + 2) = 68 ∧
    (u8 buf len (i + 3) = 10 ∨ u8 buf len (i + 3) = 13)

instance (buf : ℕ → ℕ) (len i : ℕ) : Decidable (specEndLineMarker buf len i) := by
  unfold specEndLineMarker; infer_instance

/-- C6 (counterexample): the header scan does not require `END` to be a
line of its own.  The buffer `"mrtrix tracks\nFRIEND\n"` contains no
line that is literally `END`, yet `parseTckFile` succeeds (the `END`
inside `FRIEND` terminates the header), refuting the claim that such a
buffer raises a fatal error. -/
theorem tck_end_marker_counterexample :
    (∀ i, ¬ specEndLineMarker (listBuf (strBytes (("mrtrix tracks\nFRIEND\n").data))) 21 i) ∧
      parseTckFile (listBuf (strBytes (("mrtrix tracks\nFRIEND\n").data))) 21 =
        .ok ⟨{ format := .tck
               dim := DEFAULT_DIMENSIONS
               voxelSizeSq := DEFAULT_VOXEL_SIZE_SQ
               nCount := 0
               version := 1 }, []⟩ := by
  constructor
  · have hbound : ∀ i < 18, ¬ specEndLineMarker
        (listBuf (strBytes (("mrtrix tracks\nFRIEND\n").data))) 21 i := by decide
    intro i hi
    exact hbound i (by
      have h1 := hi.1
      omega) hi
  · decide

/-- The search loop finds nothing when no index below the bound
matches. -/
theorem tckFindEnd_eq_none (buf : ℕ → ℕ) (len bound : ℕ) :
    ∀ fuel i, (∀ j, i ≤ j → j < bound → ¬ tckEndPat buf len j) → bound - i < fuel →
      tckFindEnd buf len bound fuel i = none := by
  intro fuel
  induction fuel with
  | zero => intro i _ hf; exact absurd hf (by omega)
  | succ fuel ih =>
    intro i hno hf
    simp only [tckFindEnd]
    by_cases hi : i < bound
    · rw [if_pos hi, if_neg (hno i (by omega) hi)]
      exact ih (i + 1) (fun j hj1 hj2 => hno j (by omega) hj2) (by omega)
    · rw [if_neg hi]

/-- The search loop returns the first matching index. -/
theorem tckFindEnd_eq_some (buf : ℕ → ℕ) (len bound : ℕ) :
    ∀ fuel i i0, i ≤ i0 → i0 < bound → tckEndPat buf len i0 →
      (∀ j, i ≤ j → j < i0 → ¬ tckEndPat buf len j) → bound - i < fuel →
      tckFindEnd buf len bound fuel i = some i0 := by
  intro fuel
  induction fuel with
  | zero => intro i i0 _ _ _ _ hf; exact absurd hf (by omega)
  | succ fuel ih =>
    intro i i0 hle hi0 hpat hfirst hf
    simp only [tckFindEnd]
    rw [if_pos (by omega)]
    rcases eq_or_lt_of_le hle with rfl | hlt
    · rw [if_pos hpat]
    · rw [if_neg (hfirst i (by omega) hlt)]
      exact ih (i + 1) i0 (by omega) hi0 hpat (fun j hj1 hj2 => hfirst j (by omega) hj2)
        (by omega)

/-- C6 (amended): the TCK header scan looks for the three bytes `END`
at any position — not only on a line of its own — immediately followed
by an LF or CR byte, trying start indices `i < min(len, 10000) − 2` in
order; the header ends just past that newline (a following LF is
consumed after a CR).  When no index in that window matches,
`parseTckFile` raises the fatal END-marker error (for buffers passing
the size gate). -/
theorem tck_header_end_search (buf : ℕ → ℕ) (len : ℕ) :
    ((∀ i < min len 10000 - 2, ¬ tckEndPat buf len i) → ¬ MAX_FILE_SIZE < len →
      parseTckFile buf len =
        .error (("Invalid TCK file: could not find END marker in header").data)) ∧
    (∀ i0, i0 < min len 10000 - 2 → tckEndPat buf len i0 →
      (∀ j < i0, ¬ tckEndPat buf len j) →
      tckHeaderEnd buf len = some (tckHeaderEndAt buf len i0)) := by
  constructor
  · intro hno hsize
    have hend : tckHeaderEnd buf len = none := by
      unfold tckHeaderEnd
      try dsimp only
      rw [tckFindEnd_eq_none buf len (min len 10000 - 2) (min len 10000 - 2 + 1) 0
        (fun j _ hj2 => hno j hj2) (by omega)]
      rfl
    unfold parseTckFile
    rw [if_neg hsize]
    have hh : tckParseHeader buf len =
        .error (("Invalid TCK file: could not find END marker in header").data) := by
      unfold tckParseHeader
      rw [hend]
    rw [hh]
  · intro i0 hi0 hpat hfirst
    unfold tckHeaderEnd
    try dsimp only
    rw [tckFindEnd_eq_some buf len (min len 10000 - 2) (min len 10000 - 2 + 1) 0 i0
      (by omega) hi0 hpat (fun j _ hj2 => hfirst j hj2) (by omega)]
    rfl

/-- C6 witness: the amended search applied concretely: a header-less
buffer (`"mrtrix tracks"` with no END) makes `parseTckFile` raise the
END-marker error, and on `"mrtrix tracks\nEND\n"` the first match is at
index 14 with header end 18. -/
theorem tck_header_end_search_witness :
    parseTckFile (listBuf (strBytes (("mrtrix tracks").data))) 13 =
        .error (("Invalid TCK file: could not find END marker in header").data) ∧
      tckHeaderEnd (listBuf (strBytes (("mrtrix tracks\nEND\n").data))) 18 =
        some (tckHeaderEndAt (listBuf (strBytes (("mrtrix tracks\nEND\n").data))) 18 14) :=
  ⟨(tck_header_end_search (listBuf (strBytes (("mrtrix tracks").data))) 13).1
      (by decide) (by decide),
    (tck_header_end_search (listBuf (strBytes (("mrtrix tracks\nEND\n").data))) 18).2
      14 (by decide) (by decide) (by decide)⟩

/-! Exact-integer facts about `Q` used by the TRX reconstruction. -/

theorem Q.ofNat_eq_ofInt (n : ℕ) : Q.ofNat n = Q.ofInt (n : ℤ) := rfl

theorem Q.mk0_int (n : ℤ) : Q.mk0 n 1 = Q.ofInt n := by
  unfold Q.mk0 Q.ofInt
  rw [Nat.gcd_one_right]
  norm_num

theorem Q.subQ_int (a b : ℤ) : (Q.ofInt a).subQ (Q.ofInt b) = Q.ofInt (a - b) := by
  show Q.mk0 (a * ((1 : ℕ) : ℤ) - b * ((1 : ℕ) : ℤ)) (1 * 1) = Q.ofInt (a - b)
  simp only [Nat.cast_one, mul_one, one_mul]
  exact Q.mk0_int _

theorem Q.mulQ_int (a b : ℤ) : (Q.ofInt a).mulQ (Q.ofInt b) = Q.ofInt (a * b) := by
  show Q.mk0 (a * b) (1 * 1) = Q.ofInt (a * b)
  simp only [mul_one]
  exact Q.mk0_int _

theorem Q.blt_int (a b : ℤ) : (Q.ofInt a).blt (Q.ofInt b) = decide (a < b) := by
  unfold Q.blt Q.ofInt
  simp

theorem Q.truncQ_int (a : ℤ) : (Q.ofInt a).truncQ = a := by
  unfold Q.truncQ Q.ofInt
  dsimp only
  rcases le_or_lt 0 a with h | h
  · rw [if_pos h, Nat.div_one]
    omega
  · rw [if_neg (by omega), Nat.div_one]
    omega

theorem toList_filterMap_cons {α β : Type} (f : α → Option β) (a : α) (l : List α)
    (acc : List β) :
    (acc ++ (f a).toList) ++ l.filterMap f = acc ++ (a :: l).filterMap f := by
  rw [List.filterMap_cons]
  cases f a <;> simp

theorem clampIdx_int (m : ℤ) (L : ℕ) (h0 : 0 ≤ m) (hL : m.toNat ≤ L) :
    clampIdx (F.val (Q.ofInt m)) L = m.toNat := by
  unfold clampIdx jsTrunc
  dsimp only
  rw [Q.truncQ_int]
  rw [if_neg (by omega)]
  omega

/-- C8: TRX streamline reconstruction.  With `NB_STREAMLINES` at most
the offsets-array length, a positions array holding whole vertices
(`3 ∣ length`) and every offset inside `[0, positions.length/3]`:
streamline `i` starts at vertex `offsets[i]` and ends at `offsets[i+1]`
when `i+1` is in range, else at the total vertex count; it is skipped
when `end − start < 2` and otherwise emitted with exactly the
positions slice covering vertices `start..end` (3 floats per vertex)
and point count `end − start`. -/
theorem trx_reconstruction_spec (positions : List F) (offsets : List ℤ) (nb : ℕ)
    (hnb : nb ≤ offsets.length) (h3 : 3 ∣ positions.length)
    (hrange : ∀ o ∈ offsets, 0 ≤ o ∧ o ≤ ((positions.length / 3 : ℕ) : ℤ)) :
    buildStreamlines positions offsets nb = (List.range nb).filterMap (fun i =>
      let s : ℤ := offsets.getD i 0
      let e : ℤ := if i + 1 < offsets.length then offsets.getD (i + 1) 0
        else ((positions.length / 3 : ℕ) : ℤ)
      if e - s < 2 then none
      else some ⟨(positions.take (3 * e.toNat)).drop (3 * s.toNat),
        F.val (Q.ofInt (e - s)), none, none⟩) := by
  have hget : ∀ j, j < offsets.length →
      0 ≤ offsets.getD j 0 ∧ offsets.getD j 0 ≤ ((positions.length / 3 : ℕ) : ℤ) := by
    intro j hj
    apply hrange
    rw [List.getD_eq_getElem _ _ hj]
    exact List.getElem_mem hj
  have hstep : ∀ i, i < offsets.length →
      ∀ acc : List Streamline,
      (let startOffset : F :=
          if i < offsets.length then F.val (Q.ofInt (offsets.getD i 0)) else F.nan
        let endOffset : F :=
          if i + 1 < offsets.length then F.val (Q.ofInt (offsets.getD (i + 1) 0))
          else F.val (Q.mk0 positions.length 3)
        let numPoints := F.subF endOffset startOffset
        if F.ltF numPoints (F.val (Q.ofNat 2)) then acc
        else
          acc ++ [⟨jsSliceF positions (F.mulF startOffset (F.val (Q.ofNat 3)))
            (F.mulF endOffset (F.val (Q.ofNat 3))), numPoints, none, none⟩]) =
      acc ++ ((fun i =>
        let s : ℤ := offsets.getD i 0
        let e : ℤ := if i + 1 < offsets.length then offsets.getD (i + 1) 0
          else ((positions.length / 3 : ℕ) : ℤ)
        if e - s < 2 then none
        else some (⟨(positions.take (3 * e.toNat)).drop (3 * s.toNat),
          F.val (Q.ofInt (e - s)), none, none⟩ : Streamline)) i).toList := by
    intro i hi acc
    dsimp only
    rw [if_pos hi]
    have hV : Q.mk0 (positions.length : ℤ) 3 = Q.ofInt ((positions.length / 3 : ℕ) : ℤ) := by
      rw [Q.mk0_three _ h3, Q.ofNat_eq_ofInt]
    have hs := hget i hi
    set s : ℤ := offsets.getD i 0 with hsdef
    have he : ∀ (e : ℤ), 0 ≤ e → e ≤ ((positions.length / 3 : ℕ) : ℤ) →
        (if F.ltF (F.subF (F.val (Q.ofInt e)) (F.val (Q.ofInt s))) (F.val (Q.ofNat 2)) = true
          then acc
          else acc ++ [⟨jsSliceF positions
            (F.mulF (F.val (Q.ofInt s)) (F.val (Q.ofNat 3)))
            (F.mulF (F.val (Q.ofInt e)) (F.val (Q.ofNat 3))),
            F.subF (F.val (Q.ofInt e)) (F.val (Q.ofInt s)), none, none⟩]) =
        acc ++ (if e - s < 2 then none
          else some (⟨(positions.take (3 * e.toNat)).drop (3 * s.toNat),
            F.val (Q.ofInt (e - s)), none, none⟩ : Streamline)).toList := by
      intro e he0 heV
      have hsub : F.subF (F.val (Q.ofInt e)) (F.val (Q.ofInt s)) =
          F.val (Q.ofInt (e - s)) := by
        show F.val ((Q.ofInt e).subQ (Q.ofInt s)) = _
        rw [Q.subQ_int]
      rw [hsub]
      by_cases hlt : e - s < 2
      · rw [if_pos (by
          show ((Q.ofInt (e - s)).blt (Q.ofNat 2)) = true
          rw [Q.ofNat_eq_ofInt, Q.blt_int]
          exact decide_eq_true hlt)]
        rw [if_pos hlt]
        simp
      · rw [if_neg (by
          show ¬ ((Q.ofInt (e - s)).blt (Q.ofNat 2)) = true
          rw [Q.ofNat_eq_ofInt, Q.blt_int]
          simpa using hlt)]
        rw [if_neg hlt]
        have hmulS : F.mulF (F.val (Q.ofInt s)) (F.val (Q.ofNat 3)) =
            F.val (Q.ofInt (s * 3)) := by
          show F.val ((Q.ofInt s).mulQ (Q.ofNat 3)) = _
          rw [Q.ofNat_eq_ofInt, Q.mulQ_int]
          norm_num
        have hmulE : F.mulF (F.val (Q.ofInt e)) (F.val (Q.ofNat 3)) =
            F.val (Q.ofInt (e * 3)) := by
          show F.val ((Q.ofInt e).mulQ (Q.ofNat 3)) = _
          rw [Q.ofNat_eq_ofInt, Q.mulQ_int]
          norm_num
        rw [hmulS, hmulE]
        unfold jsSliceF
        obtain ⟨k, hk⟩ := h3
        rw [clampIdx_int _ _ (by omega) (by omega), clampIdx_int _ _ (by omega) (by omega)]
        have h1 : (s * 3).toNat = 3 * s.toNat := by omega
        have h2 : (e * 3).toNat = 3 * e.toNat := by omega
        rw [h1, h2]
        simp
    by_cases hc : i + 1 < offsets.length
    · rw [if_pos hc, if_pos hc]
      exact he _ (hget (i + 1) hc).1 (hget (i + 1) hc).2
    · rw [if_neg hc, if_neg hc, hV]
      exact he _ (by positivity) (by omega)
  unfold buildStreamlines
  dsimp only
  have main : ∀ (l : List ℕ) (acc : List Streamline), (∀ i ∈ l, i < offsets.length) →
      l.foldl (fun acc i =>
        let startOffset : F :=
          if i < offsets.length then F.val (Q.ofInt (offsets.getD i 0)) else F.nan
        let endOffset : F :=
          if i + 1 < offsets.length then F.val (Q.ofInt (offsets.getD (i + 1) 0))
          else F.val (Q.mk0 positions.length 3)
        let numPoints := F.subF endOffset startOffset
        if F.ltF numPoints (F.val (Q.ofNat 2)) then acc
        else
          acc ++ [⟨jsSliceF positions (F.mulF startOffset (F.val (Q.ofNat 3)))
            (F.mulF endOffset (F.val (Q.ofNat 3))), numPoints, none, none⟩]) acc =
      acc ++ l.filterMap (fun i =>
        let s : ℤ := offsets.getD i 0
        let e : ℤ := if i + 1 < offsets.length then offsets.getD (i + 1) 0
          else ((positions.length / 3 : ℕ) : ℤ)
        if e - s < 2 then none
        else some ⟨(positions.take (3 * e.toNat)).drop (3 * s.toNat),
          F.val (Q.ofInt (e - s)), none, none⟩) := by
    intro l
    induction l with
    | nil => intro acc _; simp
    | cons i rest ih =>
      intro acc hl
      rw [List.foldl_cons, ih _ (fun j hj => hl j (List.mem_cons_of_mem _ hj))]
      rw [hstep i (hl i (List.mem_cons_self i rest)) acc]
      exact toList_filterMap_cons (fun i =>
        let s : ℤ := offsets.getD i 0
        let e : ℤ := if i + 1 < offsets.length then offsets.getD (i + 1) 0
          else ((positions.length / 3 : ℕ) : ℤ)
        if e - s < 2 then none
        else some ⟨(positions.take (3 * e.toNat)).drop (3 * s.toNat),
          F.val (Q.ofInt (e - s)), none, none⟩) i rest acc
  exact main (List.range nb) [] (fun i hi => lt_of_lt_of_le (List.mem_range.mp hi) hnb)

/-- C8 witness: the reconstruction theorem applied to the spec's
minimal example: 4 vertices, `offsets = [0, 2]`, 2 streamlines of 2
points each. -/
theorem trx_reconstruction_spec_witness :
    buildStreamlines (List.replicate 12 (F.val (Q.ofNat 0))) [0, 2] 2 =
      (List.range 2).filterMap (fun i =>
        let s : ℤ := ([0, 2] : List ℤ).getD i 0
        let e : ℤ := if i + 1 < ([0, 2] : List ℤ).length then ([0, 2] : List ℤ).getD (i + 1) 0
          else (((List.replicate 12 (F.val (Q.ofNat 0))).length / 3 : ℕ) : ℤ)
        if e - s < 2 then none
        else some ⟨((List.replicate 12 (F.val (Q.ofNat 0))).take (3 * e.toNat)).drop
            (3 * s.toNat),
          F.val (Q.ofInt (e - s)), none, none⟩) :=
  trx_reconstruction_spec (List.replicate 12 (F.val (Q.ofNat 0))) [0, 2] 2
    (by decide) (by decide) (by decide)

/-! ## C9: the bounding box -/

/-- The finite value carried by an `F` (0 for `Infinity` / `NaN`; only
ever applied to finite numbers). -/
def F.toQ : F → Q
  | F.val q => q
  | _ => Q.ofInt 0

/-- The vertex triples of a flat coordinate array, as the bounding-box
loop strides over it (an incomplete final triple is dropped; with
`3 ∣ length` there is none). -/
def triples : List F → List (F × F × F)
  | x :: y :: z :: rest => (x, y, z) :: triples rest
  | _ => []

/-- Rational minimum, in the orientation `Math.min` computes it. -/
def Qmin (a b : Q) : Q := if b.blt a then b else a

/-- Rational maximum, in the orientation `Math.max` computes it. -/
def Qmax (a b : Q) : Q := if a.blt b then b else a

/-- One bounding-box update, uncurried over a vertex triple. -/
def bbStep (st : BBState) (p : F × F × F) : BBState := bbUpdate st p.1 p.2.1 p.2.2

theorem Qmin_toRat (a b : Q) : (Qmin a b).toRat = min a.toRat b.toRat := by
  by_cases h : b.blt a = true
  · rw [Qmin, if_pos h]
    rw [Q.blt_iff] at h
    exact (min_eq_right h.le).symm
  · rw [Qmin, if_neg h]
    have h' : ¬ b.toRat < a.toRat := fun hc => h ((Q.blt_iff b a).mpr hc)
    exact (min_eq_left (not_lt.mp h')).symm

theorem Qmax_toRat (a b : Q) : (Qmax a b).toRat = max a.toRat b.toRat := by
  by_cases h : a.blt b = true
  · rw [Qmax, if_pos h]
    rw [Q.blt_iff] at h
    exact (max_eq_right h.le).symm
  · rw [Qmax, if_neg h]
    have h' : ¬ a.toRat < b.toRat := fun hc => h ((Q.blt_iff a b).mpr hc)
    exact (max_eq_left (not_lt.mp h')).symm

theorem minF_val (a b : Q) : F.minF (F.val a) (F.val b) = F.val (Qmin a b) := by
  by_cases h : b.blt a = true <;> simp [F.minF, F.isNaNF, F.ltF, Qmin, h]

theorem maxF_val (a b : Q) : F.maxF (F.val a) (F.val b) = F.val (Qmax a b) := by
  by_cases h : a.blt b = true <;> simp [F.maxF, F.isNaNF, F.ltF, Qmax, h]

theorem minF_topInf (q : Q) : F.minF (F.inf true) (F.val q) = F.val q := by
  simp [F.minF, F.isNaNF, F.ltF]

theorem maxF_botInf (q : Q) : F.maxF (F.inf false) (F.val q) = F.val q := by
  simp [F.maxF, F.isNaNF, F.ltF]

theorem F.eq_val_toQ : ∀ c : F, c.isFiniteF = true → c = F.val c.toQ
  | F.val _, _ => rfl
  | F.inf _, h => Bool.noConfusion h
  | F.nan, h => Bool.noConfusion h

theorem bbGo_triples : ∀ (l : List F), 3 ∣ l.length → ∀ st : BBState,
    bbGo l st = (triples l).foldl bbStep st
  | [], _, _ => rfl
  | [_], h, _ => by
    simp only [List.length_cons, List.length_nil] at h
    omega
  | [_, _], h, _ => by
    simp only [List.length_cons, List.length_nil] at h
    omega
  | x :: y :: z :: rest, h, st => by
    have h' : 3 ∣ rest.length := by
      simp only [List.length_cons] at h
      omega
    show bbGo rest (bbUpdate st x y z) = ((x, y, z) :: triples rest).foldl bbStep st
    rw [List.foldl_cons]
    exact bbGo_triples rest h' _

theorem mem_triples : ∀ (l : List F) (p : F × F × F), p ∈ triples l →
    p.1 ∈ l ∧ p.2.1 ∈ l ∧ p.2.2 ∈ l
  | x :: y :: z :: rest, p, hp => by
    have hp' : p = (x, y, z) ∨ p ∈ triples rest := List.mem_cons.mp hp
    rcases hp' with h | h
    · subst h
      exact ⟨by simp, by simp, by simp⟩
    · obtain ⟨h1, h2, h3⟩ := mem_triples rest p h
      exact ⟨by simp [h1], by simp [h2], by simp [h3]⟩
  | [], p, hp => absurd hp (List.not_mem_nil p)
  | [x], p, hp => absurd hp (List.not_mem_nil p)
  | [x, y], p, hp => absurd hp (List.not_mem_nil p)

theorem bb_flat : ∀ (sl : List Streamline), (∀ s ∈ sl, 3 ∣ s.points.length) →
    ∀ st : BBState, sl.foldl (fun st s => bbGo s.points st) st =
      (sl.flatMap fun s => triples s.points).foldl bbStep st
  | [], _, _ => rfl
  | s :: rest, h, st => by
    rw [List.foldl_cons]
    rw [bb_flat rest (fun t ht => h t (List.mem_cons_of_mem _ ht)) _,
      bbGo_triples s.points (h s (List.mem_cons_self _ _)) st,
      List.flatMap_cons, List.foldl_append]

theorem bbFold_vals : ∀ (pts : List (F × F × F)),
    (∀ p ∈ pts, p.1.isFiniteF = true ∧ p.2.1.isFiniteF = true ∧ p.2.2.isFiniteF = true) →
    ∀ a1 a2 a3 b1 b2 b3 : Q,
    pts.foldl bbStep ⟨F.val a1, F.val a2, F.val a3, F.val b1, F.val b2, F.val b3⟩ =
      ⟨F.val ((pts.map fun p => p.1.toQ).foldl Qmin a1),
       F.val ((pts.map fun p => p.2.1.toQ).foldl Qmin a2),
       F.val ((pts.map fun p => p.2.2.toQ).foldl Qmin a3),
       F.val ((pts.map fun p => p.1.toQ).foldl Qmax b1),
       F.val ((pts.map fun p => p.2.1.toQ).foldl Qmax b2),
       F.val ((pts.map fun p => p.2.2.toQ).foldl Qmax b3)⟩
  | [], _, _, _, _, _, _, _ => rfl
  | p :: rest, hall, a1, a2, a3, b1, b2, b3 => by
    obtain ⟨x, y, z⟩ := p
    obtain ⟨hx, hy, hz⟩ := hall (x, y, z) (List.mem_cons_self _ _)
    obtain ⟨qx, rfl⟩ : ∃ q, x = F.val q := ⟨x.toQ, F.eq_val_toQ x hx⟩
    obtain ⟨qy, rfl⟩ : ∃ q, y = F.val q := ⟨y.toQ, F.eq_val_toQ y hy⟩
    obtain ⟨qz, rfl⟩ : ∃ q, z = F.val q := ⟨z.toQ, F.eq_val_toQ z hz⟩
    rw [List.foldl_cons]
    have hstep : bbStep ⟨F.val a1, F.val a2, F.val a3, F.val b1, F.val b2, F.val b3⟩
        (F.val qx, F.val qy, F.val qz) =
        ⟨F.val (Qmin a1 qx), F.val (Qmin a2 qy), F.val (Qmin a3 qz),
         F.val (Qmax b1 qx), F.val (Qmax b2 qy), F.val (Qmax b3 qz)⟩ := by
      unfold bbStep bbUpdate
      rw [minF_val, minF_val, minF_val, maxF_val, maxF_val, maxF_val]
    rw [hstep, bbFold_vals rest (fun t ht => hall t (List.mem_cons_of_mem _ ht))
      (Qmin a1 qx) (Qmin a2 qy) (Qmin a3 qz) (Qmax b1 qx) (Qmax b2 qy) (Qmax b3 qz)]
    simp only [List.map_cons, List.foldl_cons, F.toQ]

theorem foldl_Qmin_toRat : ∀ (xs : List Q) (a : Q),
    (xs.foldl Qmin a).toRat = (xs.map Q.toRat).foldl min a.toRat
  | [], _ => rfl
  | x :: xs, a => by
    rw [List.foldl_cons, foldl_Qmin_toRat xs (Qmin a x), List.map_cons, List.foldl_cons,
      Qmin_toRat]

theorem foldl_Qmax_toRat : ∀ (xs : List Q) (a : Q),
    (xs.foldl Qmax a).toRat = (xs.map Q.toRat).foldl max a.toRat
  | [], _ => rfl
  | x :: xs, a => by
    rw [List.foldl_cons, foldl_Qmax_toRat xs (Qmax a x), List.map_cons, List.foldl_cons,
      Qmax_toRat]

theorem bboxSize_eq (b : BBox) (q : Q) (h : b.sizeSq = F.val q) :
    bboxSize b = Real.sqrt (q.toRat : ℝ) := by
  unfold bboxSize
  rw [h]

theorem sizeSq_toRat (a1 a2 a3 b1 b2 b3 : Q) :
    ((((b1.subQ a1).mulQ (b1.subQ a1)).addQ ((b2.subQ a2).mulQ (b2.subQ a2))).addQ
      ((b3.subQ a3).mulQ (b3.subQ a3))).toRat =
    (b1.toRat - a1.toRat) ^ 2 + (b2.toRat - a2.toRat) ^ 2 + (b3.toRat - a3.toRat) ^ 2 := by
  simp only [Q.toRat_addQ, Q.toRat_mulQ, Q.toRat_subQ]
  ring

theorem calcBB_vals (sl : List Streamline) (a1 a2 a3 b1 b2 b3 : Q)
    (h : sl.foldl (fun st s => bbGo s.points st)
      ⟨F.inf true, F.inf true, F.inf true, F.inf false, F.inf false, F.inf false⟩ =
      ⟨F.val a1, F.val a2, F.val a3, F.val b1, F.val b2, F.val b3⟩) :
    calculateBoundingBox sl =
      { min := (F.val a1, F.val a2, F.val a3)
        max := (F.val b1, F.val b2, F.val b3)
        center := (F.val ((a1.addQ b1).divQ (Q.ofNat 2)),
                   F.val ((a2.addQ b2).divQ (Q.ofNat 2)),
                   F.val ((a3.addQ b3).divQ (Q.ofNat 2)))
        sizeSq := F.val ((((b1.subQ a1).mulQ (b1.subQ a1)).addQ
            ((b2.subQ a2).mulQ (b2.subQ a2))).addQ
          ((b3.subQ a3).mulQ (b3.subQ a3))) } ∧
    bboxSize (calculateBoundingBox sl) =
      Real.sqrt (((b1.toRat - a1.toRat) ^ 2 + (b2.toRat - a2.toRat) ^ 2 +
        (b3.toRat - a3.toRat) ^ 2 : ℚ) : ℝ) := by
  have hbox : calculateBoundingBox sl =
      { min := (F.val a1, F.val a2, F.val a3)
        max := (F.val b1, F.val b2, F.val b3)
        center := (F.val ((a1.addQ b1).divQ (Q.ofNat 2)),
                   F.val ((a2.addQ b2).divQ (Q.ofNat 2)),
                   F.val ((a3.addQ b3).divQ (Q.ofNat 2)))
        sizeSq := F.val ((((b1.subQ a1).mulQ (b1.subQ a1)).addQ
            ((b2.subQ a2).mulQ (b2.subQ a2))).addQ
          ((b3.subQ a3).mulQ (b3.subQ a3))) } := by
    unfold calculateBoundingBox
    dsimp only
    rw [h]
    rfl
  refine ⟨hbox, ?_⟩
  rw [hbox]
  refine (bboxSize_eq _ _ rfl).trans ?_
  rw [sizeSq_toRat]

/-- C9: `calculateBoundingBox` tracks, over all vertex triples of all
streamlines (finite coordinates, whole triples), the per-axis minimum
and maximum; the center is the per-axis midpoint of min and max, and
the size is the Euclidean length of the diagonal `max - min`.  With no
triples at all, min stays `(+Infinity)` and max `(-Infinity)` on every
axis. -/
theorem bounding_box_spec (sl : List Streamline)
    (h3 : ∀ s ∈ sl, 3 ∣ s.points.length)
    (hfin : ∀ s ∈ sl, ∀ c ∈ s.points, c.isFiniteF = true) :
    ((sl.flatMap fun s => triples s.points) = [] →
      (calculateBoundingBox sl).min = (F.inf true, F.inf true, F.inf true) ∧
      (calculateBoundingBox sl).max = (F.inf false, F.inf false, F.inf false)) ∧
    ((sl.flatMap fun s => triples s.points) ≠ [] →
      ∃ a1 a2 a3 b1 b2 b3 : Q,
        (calculateBoundingBox sl).min = (F.val a1, F.val a2, F.val a3) ∧
        (calculateBoundingBox sl).max = (F.val b1, F.val b2, F.val b3) ∧
        ((sl.flatMap fun s => triples s.points).map fun p => p.1.toQ.toRat).min? =
          some a1.toRat ∧
        ((sl.flatMap fun s => triples s.points).map fun p => p.2.1.toQ.toRat).min? =
          some a2.toRat ∧
        ((sl.flatMap fun s => triples s.points).map fun p => p.2.2.toQ.toRat).min? =
          some a3.toRat ∧
        ((sl.flatMap fun s => triples s.points).map fun p => p.1.toQ.toRat).max? =
          some b1.toRat ∧
        ((sl.flatMap fun s => triples s.points).map fun p => p.2.1.toQ.toRat).max? =
          some b2.toRat ∧
        ((sl.flatMap fun s => triples s.points).map fun p => p.2.2.toQ.toRat).max? =
          some b3.toRat ∧
        (calculateBoundingBox sl).center =
          (F.val ((a1.addQ b1).divQ (Q.ofNat 2)), F.val ((a2.addQ b2).divQ (Q.ofNat 2)),
           F.val ((a3.addQ b3).divQ (Q.ofNat 2))) ∧
        ((a1.addQ b1).divQ (Q.ofNat 2)).toRat = (a1.toRat + b1.toRat) / 2 ∧
        ((a2.addQ b2).divQ (Q.ofNat 2)).toRat = (a2.toRat + b2.toRat) / 2 ∧
        ((a3.addQ b3).divQ (Q.ofNat 2)).toRat = (a3.toRat + b3.toRat) / 2 ∧
        bboxSize (calculateBoundingBox sl) =
          Real.sqrt (((b1.toRat - a1.toRat) ^ 2 + (b2.toRat - a2.toRat) ^ 2 +
            (b3.toRat - a3.toRat) ^ 2 : ℚ) : ℝ)) := by
  have hflat := bb_flat sl h3
    ⟨F.inf true, F.inf true, F.inf true, F.inf false, F.inf false, F.inf false⟩
  constructor
  · intro hemp
    have h0 : sl.foldl (fun st s => bbGo s.points st)
        ⟨F.inf true, F.inf true, F.inf true, F.inf false, F.inf false, F.inf false⟩ =
        ⟨F.inf true, F.inf true, F.inf true, F.inf false, F.inf false, F.inf false⟩ := by
      rw [hflat, hemp]
      rfl
    constructor
    · show (calculateBoundingBox sl).min = _
      unfold calculateBoundingBox
      dsimp only
      rw [h0]
    · show (calculateBoundingBox sl).max = _
      unfold calculateBoundingBox
      dsimp only
      rw [h0]
  · intro hne
    have hallfin : ∀ p ∈ sl.flatMap (fun s => triples s.points),
        p.1.isFiniteF = true ∧ p.2.1.isFiniteF = true ∧ p.2.2.isFiniteF = true := by
      intro p hp
      rw [List.mem_flatMap] at hp
      obtain ⟨s, hs, hpt⟩ := hp
      obtain ⟨h1, h2, h3'⟩ := mem_triples s.points p hpt
      exact ⟨hfin s hs _ h1, hfin s hs _ h2, hfin s hs _ h3'⟩
    obtain ⟨p0, rest, hpts⟩ :
        ∃ p0 rest, sl.flatMap (fun s => triples s.points) = p0 :: rest := by
      cases hcase : sl.flatMap (fun s => triples s.points) with
      | nil => exact absurd hcase hne
      | cons a l => exact ⟨a, l, rfl⟩
    obtain ⟨x, y, z⟩ := p0
    obtain ⟨hx, hy, hz⟩ := hallfin (x, y, z) (by rw [hpts]; exact List.mem_cons_self _ _)
    obtain ⟨qx, rfl⟩ : ∃ q, x = F.val q := ⟨x.toQ, F.eq_val_toQ x hx⟩
    obtain ⟨qy, rfl⟩ : ∃ q, y = F.val q := ⟨y.toQ, F.eq_val_toQ y hy⟩
    obtain ⟨qz, rfl⟩ : ∃ q, z = F.val q := ⟨z.toQ, F.eq_val_toQ z hz⟩
    have hrest : ∀ p ∈ rest,
        p.1.isFiniteF = true ∧ p.2.1.isFiniteF = true ∧ p.2.2.isFiniteF = true := by
      intro p hp
      exact hallfin p (by rw [hpts]; exact List.mem_cons_of_mem _ hp)
    have hstate : (sl.flatMap fun s => triples s.points).foldl bbStep
        ⟨F.inf true, F.inf true, F.inf true, F.inf false, F.inf false, F.inf false⟩ =
        ⟨F.val ((rest.map fun p => p.1.toQ).foldl Qmin qx),
         F.val ((rest.map fun p => p.2.1.toQ).foldl Qmin qy),
         F.val ((rest.map fun p => p.2.2.toQ).foldl Qmin qz),
         F.val ((rest.map fun p => p.1.toQ).foldl Qmax qx),
         F.val ((rest.map fun p => p.2.1.toQ).foldl Qmax qy),
         F.val ((rest.map fun p => p.2.2.toQ).foldl Qmax qz)⟩ := by
      rw [hpts, List.foldl_cons]
      have h0 : bbStep
          ⟨F.inf true, F.inf true, F.inf true, F.inf false, F.inf false, F.inf false⟩
          (F.val qx, F.val qy, F.val qz) =
          ⟨F.val qx, F.val qy, F.val qz, F.val qx, F.val qy, F.val qz⟩ := by
        unfold bbStep bbUpdate
        rw [minF_topInf, minF_topInf, minF_topInf, maxF_botInf, maxF_botInf, maxF_botInf]
      rw [h0, bbFold_vals rest hrest qx qy qz qx qy qz]
    obtain ⟨hbox, hsize⟩ := calcBB_vals sl _ _ _ _ _ _ (hflat.trans hstate)
    refine ⟨(rest.map fun p => p.1.toQ).foldl Qmin qx,
      (rest.map fun p => p.2.1.toQ).foldl Qmin qy,
      (rest.map fun p => p.2.2.toQ).foldl Qmin qz,
      (rest.map fun p => p.1.toQ).foldl Qmax qx,
      (rest.map fun p => p.2.1.toQ).foldl Qmax qy,
      (rest.map fun p => p.2.2.toQ).foldl Qmax qz,
      ?_, ?_, ?_, ?_, ?_, ?_, ?_, ?_, ?_, ?_, ?_, ?_, ?_⟩
    · rw [hbox]
    · rw [hbox]
    · rw [hpts, foldl_Qmin_toRat, List.map_map]
      rfl
    · rw [hpts, foldl_Qmin_toRat, List.map_map]
      rfl
    · rw [hpts, foldl_Qmin_toRat, List.map_map]
      rfl
    · rw [hpts, foldl_Qmax_toRat, List.map_map]
      rfl
    · rw [hpts, foldl_Qmax_toRat, List.map_map]
      rfl
    · rw [hpts, foldl_Qmax_toRat, List.map_map]
      rfl
    · rw [hbox]
    · rw [Q.toRat_divQ _ _ (by decide), Q.toRat_addQ, Q.toRat_ofNat]
      norm_num
    · rw [Q.toRat_divQ _ _ (by decide), Q.toRat_addQ, Q.toRat_ofNat]
      norm_num
    · rw [Q.toRat_divQ _ _ (by decide), Q.toRat_addQ, Q.toRat_ofNat]
      norm_num
    · exact hsize

/-- A single streamline whose only points are (0,0,0) and (2,4,6). -/
def bbFixture : List Streamline :=
  [⟨[F.val (Q.ofNat 0), F.val (Q.ofNat 0), F.val (Q.ofNat 0),
     F.val (Q.ofNat 2), F.val (Q.ofNat 4), F.val (Q.ofNat 6)],
    F.val (Q.ofNat 2), none, none⟩]

/-- C9 witness: on the spec's example, points (0,0,0) and (2,4,6), the
box is min=(0,0,0), max=(2,4,6), center=(1,2,3), size=sqrt 56, and the
general theorem applies. -/
theorem bounding_box_spec_witness :
    (calculateBoundingBox bbFixture).min =
      (F.val (Q.ofNat 0), F.val (Q.ofNat 0), F.val (Q.ofNat 0)) ∧
    (calculateBoundingBox bbFixture).max =
      (F.val (Q.ofNat 2), F.val (Q.ofNat 4), F.val (Q.ofNat 6)) ∧
    (calculateBoundingBox bbFixture).center =
      (F.val (Q.ofNat 1), F.val (Q.ofNat 2), F.val (Q.ofNat 3)) ∧
    bboxSize (calculateBoundingBox bbFixture) = Real.sqrt 56 ∧
    (((bbFixture.flatMap fun s => triples s.points) = [] →
      (calculateBoundingBox bbFixture).min = (F.inf true, F.inf true, F.inf true) ∧
      (calculateBoundingBox bbFixture).max = (F.inf false, F.inf false, F.inf false)) ∧
    ((bbFixture.flatMap fun s => triples s.points) ≠ [] →
      ∃ a1 a2 a3 b1 b2 b3 : Q,
        (calculateBoundingBox bbFixture).min = (F.val a1, F.val a2, F.val a3) ∧
        (calculateBoundingBox bbFixture).max = (F.val b1, F.val b2, F.val b3) ∧
        ((bbFixture.flatMap fun s => triples s.points).map fun p => p.1.toQ.toRat).min? =
          some a1.toRat ∧
        ((bbFixture.flatMap fun s => triples s.points).map fun p => p.2.1.toQ.toRat).min? =
          some a2.toRat ∧
        ((bbFixture.flatMap fun s => triples s.points).map fun p => p.2.2.toQ.toRat).min? =
          some a3.toRat ∧
        ((bbFixture.flatMap fun s => triples s.points).map fun p => p.1.toQ.toRat).max? =
          some b1.toRat ∧
        ((bbFixture.flatMap fun s => triples s.points).map fun p => p.2.1.toQ.toRat).max? =
          some b2.toRat ∧
        ((bbFixture.flatMap fun s => triples s.points).map fun p => p.2.2.toQ.toRat).max? =
          some b3.toRat ∧
        (calculateBoundingBox bbFixture).center =
          (F.val ((a1.addQ b1).divQ (Q.ofNat 2)), F.val ((a2.addQ b2).divQ (Q.ofNat 2)),
           F.val ((a3.addQ b3).divQ (Q.ofNat 2))) ∧
        ((a1.addQ b1).divQ (Q.ofNat 2)).toRat = (a1.toRat + b1.toRat) / 2 ∧
        ((a2.addQ b2).divQ (Q.ofNat 2)).toRat = (a2.toRat + b2.toRat) / 2 ∧
        ((a3.addQ b3).divQ (Q.ofNat 2)).toRat = (a3.toRat + b3.toRat) / 2 ∧
        bboxSize (calculateBoundingBox bbFixture) =
          Real.sqrt (((b1.toRat - a1.toRat) ^ 2 + (b2.toRat - a2.toRat) ^ 2 +
            (b3.toRat - a3.toRat) ^ 2 : ℚ) : ℝ))) := by
  refine ⟨by decide, by decide, by decide, ?_,
    bounding_box_spec bbFixture (by decide) (by decide)⟩
  have h56 : (calculateBoundingBox bbFixture).sizeSq = F.val (Q.ofNat 56) := by decide
  refine (bboxSize_eq _ _ h56).trans ?_
  rw [Q.toRat_ofNat]
  norm_num

/-! ## C10: the TCK datatype default -/

theorem tckLineStep_datatype (st : TckHeader) (line : List Char)
    (h : ∀ ci, line.findIdx? (fun c => c = ':') = some ci →
      lowerJs (trimJs (line.take ci)) ≠ ("datatype").data) :
    (tckLineStep st line).datatype = st.datatype := by
  unfold tckLineStep
  split
  · rfl
  · split
    · rfl
    · split
      · rfl
      · rename_i ci hci
        dsimp only
        rw [if_neg (h ci hci)]
        repeat' split
        all_goals rfl

theorem tckFold_datatype : ∀ (lines : List (List Char)) (st : TckHeader),
    (∀ line ∈ lines, ∀ ci, line.findIdx? (fun c => c = ':') = some ci →
      lowerJs (trimJs (line.take ci)) ≠ ("datatype").data) →
    (lines.foldl tckLineStep st).datatype = st.datatype
  | [], _, _ => rfl
  | l :: ls, st, h => by
    rw [List.foldl_cons, tckFold_datatype ls _ (fun t ht => h t (List.mem_cons_of_mem _ ht)),
      tckLineStep_datatype st l (h l (List.mem_cons_self _ _))]

theorem tckLoop_error (buf : ℕ → ℕ) (len : ℕ) (cfg : DtCfg) :
    ∀ (fuel : ℕ) (offset : ℤ) (acc : List Streamline) (cur : List F) (e : List Char),
    tckLoop buf len cfg fuel offset acc cur = .error e →
    e = ("RangeError").data ∨ e = msgTckMalformed
  | 0, _, _, _, _, hr => Except.noConfusion hr
  | fuel + 1, offset, acc, cur, e, hr => by
    unfold tckLoop at hr
    dsimp only at hr
    repeat' split at hr
    all_goals try exact Except.noConfusion hr
    all_goals try exact tckLoop_error buf len cfg fuel _ _ _ e hr
    all_goals try (cases hr; exact Or.inl rfl)
    all_goals (cases hr; exact Or.inr rfl)

/-- C10: a TCK header terminated by END and containing no `datatype:`
line at all keeps the default datatype: header parsing succeeds with
`Float32LE`, a supported 4-byte little-endian configuration, the body
loop runs with that configuration (reading `getFloat32` little-endian),
and no error `parseTckFile` can return is the unsupported-datatype
one. -/
theorem tck_datatype_default (buf : ℕ → ℕ) (len he : ℕ)
    (hend : tckHeaderEnd buf len = some he)
    (hnody : ∀ line ∈ (splitLinesJs (bytesToChars buf 0 he)).filter
        (fun line => trimJs line ≠ []),
      ∀ ci, line.findIdx? (fun c => c = ':') = some ci →
        lowerJs (trimJs (line.take ci)) ≠ ("datatype").data) :
    ∃ h : TckHeader,
      tckParseHeader buf len = .ok h ∧
      h.datatype = ("Float32LE").data ∧
      dataTypes h.datatype = some ⟨4, true, false⟩ ∧
      (∀ b o, readCfg ⟨4, true, false⟩ b o = getF32LE b o) ∧
      (∀ q : Q, h.fileOffset = F.val q →
        tckParseStreamlines buf len h =
          tckLoop buf len ⟨4, true, false⟩ (len + 1) q.floorQ [] []) ∧
      (∀ e, parseTckFile buf len = .error e →
        strStarts (("Unsupported TCK datatype: ").data) e = false) := by
  obtain ⟨h0, hok, hdt⟩ : ∃ h0 : TckHeader, tckParseHeader buf len = Except.ok h0 ∧
      h0.datatype = ("Float32LE").data := by
    unfold tckParseHeader
    rw [hend]
    dsimp only
    rw [tckFold_datatype _ _ hnody]
    exact ⟨_, if_pos rfl, tckFold_datatype _ _ hnody⟩
  have hcfg : dataTypes (("Float32LE").data) = some (⟨4, true, false⟩ : DtCfg) := rfl
  refine ⟨h0, hok, hdt, ?_, ?_, ?_, ?_⟩
  · rw [hdt]
    exact hcfg
  · intro b o
    rfl
  · intro q hq
    unfold tckParseStreamlines
    rw [hdt, hcfg]
    dsimp only
    rw [hq]
  · intro e hp
    unfold parseTckFile at hp
    split at hp
    · cases hp
      decide
    · rw [hok] at hp
      dsimp only at hp
      split at hp
      · cases hp
        decide
      · split at hp
        · rename_i e' heq
          cases hp
          unfold tckParseStreamlines at heq
          rw [hdt, hcfg] at heq
          dsimp only at heq
          split at heq
          · rcases tckLoop_error buf len ⟨4, true, false⟩ _ _ _ _ _ heq with h | h
            · rw [h]
              decide
            · rw [h]
              decide
          · exact Except.noConfusion heq
        · exact Except.noConfusion hp

/-- C10 witness: the default-datatype theorem applied to a concrete TCK
buffer whose header is exactly `mrtrix tracks`, `END` and no datatype
line. -/
theorem tck_datatype_default_witness :
    ∃ h : TckHeader,
      tckParseHeader (listBuf (tckFix 1)) (tckFix 1).length = .ok h ∧
      h.datatype = ("Float32LE").data ∧
      dataTypes h.datatype = some ⟨4, true, false⟩ ∧
      (∀ b o, readCfg ⟨4, true, false⟩ b o = getF32LE b o) ∧
      (∀ q : Q, h.fileOffset = F.val q →
        tckParseStreamlines (listBuf (tckFix 1)) (tckFix 1).length h =
          tckLoop (listBuf (tckFix 1)) (tckFix 1).length ⟨4, true, false⟩
            ((tckFix 1).length + 1) q.floorQ [] []) ∧
      (∀ e, parseTckFile (listBuf (tckFix 1)) (tckFix 1).length = .error e →
        strStarts (("Unsupported TCK datatype: ").data) e = false) :=
  tck_datatype_default (listBuf (tckFix 1)) (tckFix 1).length 18
    (by decide)
    (by
      intro line hl ci hci
      have hls : (splitLinesJs (bytesToChars (listBuf (tckFix 1)) 0 18)).filter
          (fun line => trimJs line ≠ []) = [("mrtrix tracks").data, ("END").data] := by
        decide
      rw [hls] at hl
      rcases List.mem_cons.mp hl with h | h
      · subst h
        exact Option.noConfusion hci
      · rcases List.mem_cons.mp h with h2 | h2
        · subst h2
          exact Option.noConfusion hci
        · exact absurd h2 (List.not_mem_nil line))

end TractView
